import Mathlib

/-!
# golang-trap: a verification development

Shallow embedding of the `examples/` programs of the repository.

* Go's `int` is the 64-bit two's-complement integer of a 64-bit target: every
  arithmetic result is wrapped into `[-2^63, 2^63 - 1]`.
* A `map[string]int` is either `nil` or an allocated table.
* `sync.RWMutex`, `sync.WaitGroup` and channels are library/runtime objects; they
  are modelled from their documented behaviour (blocking is an explicit outcome,
  run-time panics are explicit outcomes).
* Goroutines are modelled by an interleaving semantics: a step function per
  goroutine and schedules that pick which goroutine moves next.
-/

namespace GolangTrap

/-! ## Go `int` -/

/-- Largest value of Go's `int` (64-bit): `2^63 - 1`. -/
def maxInt : Int := 9223372036854775807

/-- Smallest value of Go's `int` (64-bit): `-2^63`. -/
def minInt : Int := -9223372036854775808

/-- Two's-complement wrap-around of a mathematical integer into the range of `int`. -/
def wrapInt (x : Int) : Int := (x + 9223372036854775808) % 18446744073709551616 - 9223372036854775808

/-- A value of Go's type `int`. -/
structure GoInt where
  val : Int
  lo : minInt ≤ val
  hi : val ≤ maxInt

instance : DecidableEq GoInt := fun a b =>
  if h : a.val = b.val then isTrue (by cases a; cases b; simp_all)
  else isFalse (fun e => h (by rw [e]))

/-- Conversion of a mathematical integer to `int`, wrapping on overflow. -/
def GoInt.ofInt (x : Int) : GoInt :=
  ⟨wrapInt x, by unfold wrapInt minInt; omega, by unfold wrapInt maxInt; omega⟩

/-- The zero value of `int`. -/
def GoInt.zero : GoInt := GoInt.ofInt 0

/-- The effect of `x++` on an `int`: add one, wrapping on overflow. -/
def GoInt.inc (a : GoInt) : GoInt := GoInt.ofInt (a.val + 1)

/-! ## `map[string]int` -/

/-- A Go `map[string]int`: the nil map, or an allocated table. -/
inductive GoMap where
  | nil : GoMap
  | table (t : String → Option GoInt) : GoMap

/-- The map built by `make(map[string]int)`. -/
def GoMap.make : GoMap := GoMap.table (fun _ => none)

/-- Comma-ok read: `v, ok := m[key]` (allowed on a nil map). -/
def GoMap.lookup (m : GoMap) (key : String) : GoInt × Bool :=
  match m with
  | GoMap.nil => (GoInt.zero, false)
  | GoMap.table t =>
    match t key with
    | none => (GoInt.zero, false)
    | some v => (v, true)

/-- Single-value read: `m[key]`, the zero value when the key is absent. -/
def GoMap.index (m : GoMap) (key : String) : GoInt := (m.lookup key).1

/-- Write `m[key] = v`; on a nil map the run time panics. -/
def GoMap.assign (m : GoMap) (key : String) (v : GoInt) : Except String GoMap :=
  match m with
  | GoMap.nil => Except.error "assignment to entry in nil map"
  | GoMap.table t => Except.ok (GoMap.table (fun k => if k = key then some v else t k))

/-- The built-in `delete(m, key)`; on a nil map it does nothing. -/
def GoMap.delete (m : GoMap) (key : String) : GoMap :=
  match m with
  | GoMap.nil => GoMap.nil
  | GoMap.table t => GoMap.table (fun k => if k = key then none else t k)

/-- Whether the map is the nil map. -/
def GoMap.isNil (m : GoMap) : Bool :=
  match m with
  | GoMap.nil => true
  | GoMap.table _ => false

/-! ## `sync.RWMutex` -/

/-- State of a `sync.RWMutex`: whether a writer holds it, and how many readers do. -/
structure RWMutex where
  writer : Bool
  readers : Nat
deriving DecidableEq

/-- The zero value of `sync.RWMutex`: unlocked. -/
def RWMutex.zero : RWMutex := { writer := false, readers := 0 }

/-- Method `Lock`: succeeds when nobody holds the mutex; `none` means the caller blocks. -/
def RWMutex.Lock (m : RWMutex) : Option RWMutex :=
  if m.writer = false ∧ m.readers = 0 then some { m with writer := true } else none

/-- Method `Unlock`: releases the write lock; a fatal error if it is not write-locked. -/
def RWMutex.Unlock (m : RWMutex) : Except String RWMutex :=
  if m.writer = true then Except.ok { m with writer := false }
  else Except.error "sync: Unlock of unlocked RWMutex"

/-- Method `RLock`: succeeds when no writer holds the mutex; `none` means the caller blocks. -/
def RWMutex.RLock (m : RWMutex) : Option RWMutex :=
  if m.writer = false then some { m with readers := m.readers + 1 } else none

/-- Method `RUnlock`: releases one read lock; a fatal error if there is none. -/
def RWMutex.RUnlock (m : RWMutex) : Except String RWMutex :=
  if m.readers = 0 then Except.error "sync: RUnlock of unlocked RWMutex"
  else Except.ok { m with readers := m.readers - 1 }

/-! ## `SafeCounter` (examples/map_concurrent.go) -/

/-- Result of running a call: it returns, it panics, or it blocks on a lock/channel. -/
inductive Outcome (α : Type) where
  | ok (a : α) : Outcome α
  | panic (msg : String) : Outcome α
  | blocked : Outcome α

/-- The struct `SafeCounter`. -/
structure SafeCounter where
  mu : RWMutex
  count : GoMap

/-- Function `NewSafeCounter`: zero mutex, `count: make(map[string]int)`. -/
def NewSafeCounter : SafeCounter := { mu := RWMutex.zero, count := GoMap.make }

/-- Method `(c *SafeCounter).Increment(key)`: `Lock`, `defer Unlock`, `c.count[key]++`. -/
def Increment (c : SafeCounter) (key : String) : Outcome SafeCounter :=
  match c.mu.Lock with
  | none => Outcome.blocked
  | some mu1 =>
    match c.count.assign key (c.count.index key).inc with
    | Except.error msg => Outcome.panic msg
    | Except.ok cnt =>
      match mu1.Unlock with
      | Except.error msg => Outcome.panic msg
      | Except.ok mu2 => Outcome.ok { mu := mu2, count := cnt }

/-- Method `(c *SafeCounter).Get(key)`: `RLock`, `defer RUnlock`, `return c.count[key]`.
The result is the returned `int` together with the counter after the call. -/
def Get (c : SafeCounter) (key : String) : Outcome (GoInt × SafeCounter) :=
  match c.mu.RLock with
  | none => Outcome.blocked
  | some mu1 =>
    let v := c.count.index key
    match mu1.RUnlock with
    | Except.error msg => Outcome.panic msg
    | Except.ok mu2 => Outcome.ok (v, { mu := mu2, count := c.count })

/-- A call of one of the two methods of `SafeCounter`. -/
inductive Call where
  | increment (key : String) : Call
  | get (key : String) : Call

/-- Run one method call, keeping the counter it leaves behind. -/
def runCall (c : SafeCounter) (call : Call) : Outcome SafeCounter :=
  match call with
  | Call.increment key => Increment c key
  | Call.get key =>
    match Get c key with
    | Outcome.ok r => Outcome.ok r.2
    | Outcome.panic msg => Outcome.panic msg
    | Outcome.blocked => Outcome.blocked

/-- Run a sequence of method calls one after the other; stops at the first call
that panics or blocks. -/
def runCalls (c : SafeCounter) (calls : List Call) : Outcome SafeCounter :=
  match calls with
  | [] => Outcome.ok c
  | call :: rest =>
    match runCall c call with
    | Outcome.ok c1 => runCalls c1 rest
    | Outcome.panic msg => Outcome.panic msg
    | Outcome.blocked => Outcome.blocked

/-- The counter after `n` successive calls `Increment(key)`. -/
def incrementN (c : SafeCounter) (key : String) (n : Nat) : Outcome SafeCounter :=
  runCalls c (List.replicate n (Call.increment key))

/-- The zero value `SafeCounter{}` (what `var c SafeCounter` gives): nil map. -/
def zeroSafeCounter : SafeCounter := { mu := RWMutex.zero, count := GoMap.nil }

/-- A counter whose map holds `"a"` at the largest `int`. -/
def counterAtMax : SafeCounter :=
  { mu := RWMutex.zero
    count := GoMap.table (fun k => if k = "a" then some (GoInt.ofInt maxInt) else none) }

/-- A counter whose map holds `"a"` with the stored value 0. -/
def counterStoredZero : SafeCounter :=
  { mu := RWMutex.zero
    count := GoMap.table (fun k => if k = "a" then some GoInt.zero else none) }

/-- A counter whose map holds `"a"` with the stored value 1. -/
def counterWithA : SafeCounter :=
  { mu := RWMutex.zero
    count := GoMap.table (fun k => if k = "a" then some (GoInt.ofInt 1) else none) }

/-- The `int` a call returned, when it returned. -/
def returned (o : Outcome (GoInt × SafeCounter)) : Option Int :=
  match o with
  | Outcome.ok r => some r.1.val
  | Outcome.panic _ => none
  | Outcome.blocked => none

/-! ## Goroutines calling `Increment` concurrently (demonstrateCounter) -/

/-- Where a goroutine stands inside a call `counter.Increment(key)`. -/
inductive IncPc where
  | atLock : IncPc
  | atLoad : IncPc
  | atStore : IncPc
  | atUnlock : IncPc
deriving DecidableEq

/-- A goroutine that still has `calls` calls of `Increment(key)` to finish (the one
in progress included); `tmp` is the value read by `c.count[key]++`. -/
structure Incrementer where
  pc : IncPc
  tmp : GoInt
  calls : Nat

/-- A shared `SafeCounter`, the goroutines incrementing it, and the panic that
escaped, if one did. -/
structure CounterSystem where
  counter : SafeCounter
  gs : List Incrementer
  panicked : Option String

/-- The system of `demonstrateCounter`: a counter from `NewSafeCounter` and one
goroutine per entry of `calls`, the entry being its number of `Increment` calls. -/
def incStart (calls : List Nat) : CounterSystem :=
  { counter := NewSafeCounter
    gs := calls.map (fun n => { pc := IncPc.atLock, tmp := GoInt.zero, calls := n })
    panicked := none }

/-- Function `demonstrateCounter`: ten goroutines, each calling `counter.Increment("test")`
once, on a counter from `NewSafeCounter`. -/
def demonstrateCounter : CounterSystem := incStart (List.replicate 10 1)

/-- One step of goroutine `i`: `c.mu.Lock()`, the read of `c.count[key]++`, its write,
or the deferred `c.mu.Unlock()`. `none`: the goroutine does not exist, has finished,
is blocked on the lock, or the program has crashed. -/
def incStep (key : String) (s : CounterSystem) (i : Nat) : Option CounterSystem :=
  match s.panicked with
  | some _ => none
  | none =>
    match s.gs[i]? with
    | none => none
    | some g =>
      if g.calls = 0 then none
      else
        match g.pc with
        | IncPc.atLock =>
          match s.counter.mu.Lock with
          | none => none
          | some mu1 =>
            some { s with counter := { s.counter with mu := mu1 }
                          gs := s.gs.set i { g with pc := IncPc.atLoad } }
        | IncPc.atLoad =>
          some { s with gs := s.gs.set i
                          { g with pc := IncPc.atStore, tmp := s.counter.count.index key } }
        | IncPc.atStore =>
          match s.counter.count.assign key g.tmp.inc with
          | Except.error msg => some { s with panicked := some msg }
          | Except.ok cnt =>
            some { s with counter := { s.counter with count := cnt }
                          gs := s.gs.set i { g with pc := IncPc.atUnlock } }
        | IncPc.atUnlock =>
          match s.counter.mu.Unlock with
          | Except.error msg => some { s with panicked := some msg }
          | Except.ok mu2 =>
            some { s with counter := { s.counter with mu := mu2 }
                          gs := s.gs.set i { g with pc := IncPc.atLock, calls := g.calls - 1 } }

/-- Run a schedule: the goroutine named at each position makes one step. `none` when
the schedule names a goroutine that cannot move at that point. -/
def incExec (key : String) (s : CounterSystem) (sched : List Nat) : Option CounterSystem :=
  match sched with
  | [] => some s
  | i :: rest =>
    match incStep key s i with
    | none => none
    | some s1 => incExec key s1 rest

/-- All goroutines have finished all their calls. -/
def incDone (s : CounterSystem) : Bool := s.gs.all (fun g => g.calls == 0)

/-- Steps a goroutine still has to make: four per call, less those already made. -/
def incLeft (g : Incrementer) : Nat :=
  match g.pc with
  | IncPc.atLock => 4 * g.calls
  | IncPc.atLoad => 4 * g.calls - 1
  | IncPc.atStore => 4 * g.calls - 2
  | IncPc.atUnlock => 4 * g.calls - 3

/-- Steps the whole system still has to make. -/
def incMeasure (s : CounterSystem) : Nat := (s.gs.map incLeft).sum

/-- Whether a goroutine is between `Lock` and `Unlock` (1) or not (0). -/
def inCritical (g : Incrementer) : Nat :=
  match g.pc with
  | IncPc.atLock => 0
  | _ => 1

/-- Writes to `count[key]` a goroutine has not made yet. -/
def incPending (g : Incrementer) : Nat :=
  match g.pc with
  | IncPc.atUnlock => g.calls - 1
  | _ => g.calls

/-- The schedule in which goroutine 0 makes a whole call, then goroutine 1, then
goroutine 0 makes its second call. -/
def schedThreeCalls : List Nat := [0, 0, 0, 0, 1, 1, 1, 1, 0, 0, 0, 0]

/-- The state the schedule `schedThreeCalls` leads to, from two goroutines that make
two calls and one call. -/
def finalThreeCalls : CounterSystem :=
  (incExec "x" (incStart [2, 1]) schedThreeCalls).getD (incStart [])

/-- The invariant of the system of incrementing goroutines; `total` is the number of
`Increment` calls the goroutines had to make at the start. -/
structure IncInv (key : String) (total : Nat) (s : CounterSystem) : Prop where
  noPanic : s.panicked = none
  readers : s.counter.mu.readers = 0
  alloc : s.counter.count.isNil = false
  excl : (s.gs.map inCritical).sum = if s.counter.mu.writer = true then 1 else 0
  busy : ∀ (j : Nat) (g : Incrementer), s.gs[j]? = some g → g.pc ≠ IncPc.atLock → g.calls ≠ 0
  loaded : ∀ (j : Nat) (g : Incrementer), s.gs[j]? = some g → g.pc = IncPc.atStore →
    g.tmp = s.counter.count.index key
  value : ∃ d : Nat, d + (s.gs.map incPending).sum = total ∧
    (s.counter.count.index key).val = wrapInt d

/-! ## Channels of `int` -/

/-- An allocated `chan int`: capacity, buffered values (oldest first), whether it has
been closed, and how many goroutines are blocked receiving from it. -/
structure Chan where
  cap : Nat
  buf : List GoInt
  closed : Bool
  receivers : Nat

/-- What a send statement `ch <- v` does. -/
inductive SendResult where
  | done (ch : Chan) : SendResult
  | panics (msg : String) : SendResult
  | blocks : SendResult

/-- The send `ch <- v`; `none` is the nil channel. A send on a closed channel panics;
on an open channel it completes by handing the value to a waiting receiver or by
putting it in the buffer, and blocks when it can do neither. -/
def chanSend (ch : Option Chan) (v : GoInt) : SendResult :=
  match ch with
  | none => SendResult.blocks
  | some c =>
    if c.closed = true then SendResult.panics "send on closed channel"
    else if 0 < c.receivers then SendResult.done { c with receivers := c.receivers - 1 }
    else if c.buf.length < c.cap then SendResult.done { c with buf := c.buf ++ [v] }
    else SendResult.blocks

/-! ## `safeSend` (examples/channel_send_closed.go) -/

/-- The deferred closure of `safeSend`, given what `recover()` returns and the current
value of the named result `sent`: `if r := recover(); r != nil { Printf; sent = false }`.
Returns the final `sent` and what was printed. -/
def safeSendDeferred (r : Option String) (sent : Bool) : Bool × List String :=
  match r with
  | some msg => (false, ["捕获到 panic: " ++ msg ++ "\n"])
  | none => (sent, [])

/-- Function `safeSend(ch, val)`: the body is `ch <- val; return true`, the deferred closure
recovers. The result is the returned `sent`, the channel afterwards and the output. -/
def safeSend (ch : Option Chan) (val : GoInt) : Outcome (Bool × Option Chan × List String) :=
  match chanSend ch val with
  | SendResult.blocks => Outcome.blocked
  | SendResult.panics msg =>
    let r := safeSendDeferred (some msg) false
    Outcome.ok (r.1, ch, r.2)
  | SendResult.done ch1 =>
    let r := safeSendDeferred none true
    Outcome.ok (r.1, some ch1, r.2)

/-- The last statement of `wrongWay`: a bare `ch <- 42`, with nothing to recover a panic. -/
def bareSend (ch : Option Chan) (val : GoInt) : Outcome (Option Chan) :=
  match chanSend ch val with
  | SendResult.blocks => Outcome.blocked
  | SendResult.panics msg => Outcome.panic msg
  | SendResult.done ch1 => Outcome.ok (some ch1)

/-- An unbuffered channel that has been closed, as in `wrongWay`. -/
def closedChan : Chan := { cap := 0, buf := [], closed := true, receivers := 0 }

/-- An open unbuffered channel with one goroutine waiting to receive. -/
def openChanWithReceiver : Chan := { cap := 0, buf := [], closed := false, receivers := 1 }

/-! ## `bestPractice` / `producer` / `consumer` (examples/channel_close.go) -/

/-- The two goroutines of `bestPractice`. -/
inductive BpActor where
  | consumer : BpActor
  | producer : BpActor
deriving DecidableEq

/-- Where the goroutine started by `producer` stands: not started; at the loop test
`i < 5` with the current `i`; at `ch <- i`; at the deferred `close(ch)`; exited. -/
inductive ProdPc where
  | notStarted : ProdPc
  | atTest (i : Nat) : ProdPc
  | atSend (i : Nat) : ProdPc
  | atClose : ProdPc
  | exited : ProdPc
deriving DecidableEq

/-- Where the main goroutine stands: at `ch := producer()`; inside `consumer` at the
receive of `for val := range ch`; at the `Printf` with the received `val`; returned. -/
inductive ConsPc where
  | atProducer : ConsPc
  | atRecv : ConsPc
  | atPrint (val : Int) : ConsPc
  | returned : ConsPc
deriving DecidableEq

/-- State of `bestPractice`: the unbuffered channel (made or not, closed or not, and
the goroutines that executed `close` on it), the two goroutines, the values the
consumer has printed, and the panic that escaped, if any. -/
structure BpState where
  made : Bool
  closed : Bool
  closers : List BpActor
  prod : ProdPc
  cons : ConsPc
  consumed : List Int
  panicked : Option String
deriving DecidableEq

/-- Before `bestPractice` runs. -/
def bestPractice : BpState :=
  { made := false, closed := false, closers := [], prod := ProdPc.notStarted,
    cons := ConsPc.atProducer, consumed := [], panicked := none }

/-- One step of the main goroutine. `none`: it has returned or is blocked. -/
def consumerStep (s : BpState) : Option BpState :=
  match s.cons with
  | ConsPc.atProducer =>
    some { s with made := true, prod := ProdPc.atTest 0, cons := ConsPc.atRecv }
  | ConsPc.atRecv =>
    match s.prod with
    | ProdPc.atSend i =>
      some { s with prod := ProdPc.atTest (i + 1), cons := ConsPc.atPrint (Int.ofNat i) }
    | _ => if s.closed = true then some { s with cons := ConsPc.returned } else none
  | ConsPc.atPrint val =>
    some { s with consumed := s.consumed ++ [val], cons := ConsPc.atRecv }
  | ConsPc.returned => none

/-- One step of the goroutine started by `producer`. `none`: it has not started, has
exited, or is blocked in its send. -/
def producerStep (s : BpState) : Option BpState :=
  match s.prod with
  | ProdPc.notStarted => none
  | ProdPc.atTest i =>
    if i < 5 then some { s with prod := ProdPc.atSend i }
    else some { s with prod := ProdPc.atClose }
  | ProdPc.atSend i =>
    if s.closed = true then some { s with panicked := some "send on closed channel" }
    else
      match s.cons with
      | ConsPc.atRecv =>
        some { s with prod := ProdPc.atTest (i + 1), cons := ConsPc.atPrint (Int.ofNat i) }
      | _ => none
  | ProdPc.atClose =>
    if s.closed = true then some { s with panicked := some "close of closed channel" }
    else some { s with closed := true, closers := s.closers ++ [BpActor.producer],
                       prod := ProdPc.exited }
  | ProdPc.exited => none

/-- One step of the chosen goroutine; nothing moves after a panic has escaped. -/
def bpStep (s : BpState) (a : BpActor) : Option BpState :=
  match s.panicked with
  | some _ => none
  | none =>
    match a with
    | BpActor.consumer => consumerStep s
    | BpActor.producer => producerStep s

/-- Run a schedule; `none` when it names a goroutine that cannot move. -/
def bpExec (s : BpState) (sched : List BpActor) : Option BpState :=
  match sched with
  | [] => some s
  | a :: rest =>
    match bpStep s a with
    | none => none
    | some s1 => bpExec s1 rest

/-- Number of values the producer has handed over. -/
def prodCount (p : ProdPc) : Nat :=
  match p with
  | ProdPc.notStarted => 0
  | ProdPc.atTest i => i
  | ProdPc.atSend i => i
  | ProdPc.atClose => 5
  | ProdPc.exited => 5

/-- Values the consumer has received: those printed, and the one about to be. -/
def bpReceived (s : BpState) : List Int :=
  match s.cons with
  | ConsPc.atPrint val => s.consumed ++ [val]
  | _ => s.consumed

/-- Steps the producer still has to make. -/
def prodLeft (p : ProdPc) : Nat :=
  match p with
  | ProdPc.notStarted => 12
  | ProdPc.atTest i => 2 * (5 - i) + 2
  | ProdPc.atSend i => 2 * (5 - i) + 1
  | ProdPc.atClose => 1
  | ProdPc.exited => 0

/-- Weight of the consumer's position. -/
def consLeft (c : ConsPc) : Nat :=
  match c with
  | ConsPc.atProducer => 3
  | ConsPc.atPrint _ => 2
  | ConsPc.atRecv => 1
  | ConsPc.returned => 0

/-- A bound on the number of steps `bestPractice` can still make. -/
def bpMeasure (s : BpState) : Nat := 2 * prodLeft s.prod + consLeft s.cons

/-- The invariant of `bestPractice`. -/
structure BpInv (s : BpState) : Prop where
  noPanic : s.panicked = none
  received : bpReceived s = (List.range (prodCount s.prod)).map Int.ofNat
  bound : prodCount s.prod ≤ 5
  sendBound : ∀ i, s.prod = ProdPc.atSend i → i < 5
  closedIff : s.closed = true ↔ s.prod = ProdPc.exited
  closersEq : s.closers = if s.closed = true then [BpActor.producer] else []
  started : s.cons = ConsPc.atProducer ↔ s.prod = ProdPc.notStarted
  returnedClosed : s.cons = ConsPc.returned → s.closed = true

/-- A schedule of `bestPractice` that runs it to the end. -/
def bpSchedule : List BpActor :=
  [BpActor.consumer,
   BpActor.producer, BpActor.producer, BpActor.consumer,
   BpActor.producer, BpActor.producer, BpActor.consumer,
   BpActor.producer, BpActor.consumer, BpActor.consumer,
   BpActor.producer, BpActor.producer, BpActor.consumer,
   BpActor.producer, BpActor.consumer, BpActor.consumer,
   BpActor.producer, BpActor.producer, BpActor.consumer]

/-- The state `bestPractice` ends in. -/
def bpFinal : BpState :=
  { made := true, closed := true, closers := [BpActor.producer], prod := ProdPc.exited,
    cons := ConsPc.returned, consumed := [0, 1, 2, 3, 4], panicked := none }

/-! ## `sync.WaitGroup` and `correctWay` / `correctWay2` (examples/waitgroup_error.go) -/

/-- State of a `sync.WaitGroup`: its counter. -/
structure WaitGroup where
  counter : Int
deriving DecidableEq

/-- Method `wg.Add(delta)`: adds `delta` to the counter; a negative counter is a panic. -/
def WaitGroup.Add (wg : WaitGroup) (delta : Int) : Except String WaitGroup :=
  if wg.counter + delta < 0 then Except.error "sync: negative WaitGroup counter"
  else Except.ok { counter := wg.counter + delta }

/-- Method `wg.Done()`: it is `wg.Add(-1)`. -/
def WaitGroup.Done (wg : WaitGroup) : Except String WaitGroup := wg.Add (-1)

/-- Method `wg.Wait()`: returns when the counter is zero; `none`: the caller blocks. -/
def WaitGroup.Wait (wg : WaitGroup) : Option WaitGroup :=
  if wg.counter = 0 then some wg else none

/-- The statements that occur in the WaitGroup examples. -/
inductive WgInstr where
  | add (delta : Int) : WgInstr
  | go (id : Nat) : WgInstr
  | wait : WgInstr
  | print (line : String) : WgInstr
  | done : WgInstr
deriving DecidableEq

/-- The goroutine `go func(id int) { defer wg.Done(); fmt.Printf(...) }(i)`: the
`Printf`, then the deferred `Done`. -/
def goBody (id : Nat) : List WgInstr :=
  [WgInstr.print ("Goroutine " ++ toString id ++ " 执行\n"), WgInstr.done]

/-- Function `correctWay`: `wg.Add(3)`, the loop `for i := 0; i < 3; i++` starting a goroutine
each time, `wg.Wait()`, `Println`. -/
def correctWay : List WgInstr :=
  [WgInstr.add 3, WgInstr.go 0, WgInstr.go 1, WgInstr.go 2, WgInstr.wait,
   WgInstr.print "所有 goroutine 完成\n"]

/-- Function `correctWay2`: the loop doing `wg.Add(1)` and starting a goroutine three times,
then `wg.Wait()`. -/
def correctWay2 : List WgInstr :=
  [WgInstr.add 1, WgInstr.go 0, WgInstr.add 1, WgInstr.go 1, WgInstr.add 1, WgInstr.go 2,
   WgInstr.wait]

/-- State of a WaitGroup example: the WaitGroup, what the main goroutine and every
started goroutine still have to execute, the sum of the deltas added so far, the
number of `Done` calls so far, whether `Wait` has returned, the output, and the panic
that escaped, if any. -/
structure WgState where
  wg : WaitGroup
  main : List WgInstr
  gs : List (List WgInstr)
  adds : Int
  dones : Int
  waited : Bool
  out : List String
  panicked : Option String
deriving DecidableEq

/-- Who makes a step: the main goroutine or the `i`-th started goroutine. -/
inductive WgActor where
  | main : WgActor
  | goroutine (i : Nat) : WgActor
deriving DecidableEq

/-- The start of a function whose body is `prog`: `var wg sync.WaitGroup`. -/
def wgStart (prog : List WgInstr) : WgState :=
  { wg := { counter := 0 }, main := prog, gs := [], adds := 0, dones := 0,
    waited := false, out := [], panicked := none }

/-- The effect of one statement; `none`: the statement blocks. -/
def wgInstr (s : WgState) (instr : WgInstr) : Option WgState :=
  match instr with
  | WgInstr.add delta =>
    match s.wg.Add delta with
    | Except.error msg => some { s with panicked := some msg }
    | Except.ok wg1 => some { s with wg := wg1, adds := s.adds + delta }
  | WgInstr.done =>
    match s.wg.Done with
    | Except.error msg => some { s with panicked := some msg }
    | Except.ok wg1 => some { s with wg := wg1, dones := s.dones + 1 }
  | WgInstr.go id => some { s with gs := s.gs ++ [goBody id] }
  | WgInstr.wait =>
    match s.wg.Wait with
    | none => none
    | some _ => some { s with waited := true }
  | WgInstr.print line => some { s with out := s.out ++ [line] }

/-- One step of the chosen goroutine: it executes its next statement. `none`: it has
nothing left, does not exist, is blocked, or the program has crashed. -/
def wgStep (s : WgState) (a : WgActor) : Option WgState :=
  match s.panicked with
  | some _ => none
  | none =>
    match a with
    | WgActor.main =>
      match s.main with
      | [] => none
      | instr :: rest => wgInstr { s with main := rest } instr
    | WgActor.goroutine i =>
      match s.gs[i]? with
      | none => none
      | some [] => none
      | some (instr :: rest) => wgInstr { s with gs := s.gs.set i rest } instr

/-- Run a schedule; `none` when it names a goroutine that cannot move. -/
def wgExec (s : WgState) (sched : List WgActor) : Option WgState :=
  match sched with
  | [] => some s
  | a :: rest =>
    match wgStep s a with
    | none => none
    | some s1 => wgExec s1 rest

/-- What the statements still to come will add to the number of outstanding `Done`s
minus what they will add to the counter: a started goroutine owes one `Done`. -/
def bal (l : List WgInstr) : Int :=
  match l with
  | [] => 0
  | WgInstr.add delta :: rest => bal rest - delta
  | WgInstr.go _ :: rest => bal rest + 1
  | WgInstr.done :: rest => bal rest + 1
  | WgInstr.wait :: rest => bal rest
  | WgInstr.print _ :: rest => bal rest

/-- Every remaining part of the statement list has a non-negative balance: no `Done`
can come before the `Add` that accounts for it. -/
def nonNeg (l : List WgInstr) : Bool :=
  match l with
  | [] => true
  | instr :: rest => decide (0 ≤ bal (instr :: rest)) && nonNeg rest

/-- Only `print` statements. -/
def quiet (l : List WgInstr) : Bool :=
  match l with
  | [] => true
  | WgInstr.print _ :: rest => quiet rest
  | _ :: _ => false

/-- After the first `wait`, only `print` statements follow. -/
def quietAfterWait (l : List WgInstr) : Bool :=
  match l with
  | [] => true
  | WgInstr.wait :: rest => quiet rest
  | _ :: rest => quietAfterWait rest

/-- Number of `Done` calls a goroutine still has to make. -/
def owed (l : List WgInstr) : Nat :=
  match l with
  | [] => 0
  | WgInstr.done :: rest => owed rest + 1
  | _ :: rest => owed rest

/-- A goroutine body: only `print` and `done`. -/
def bodyOk (l : List WgInstr) : Bool :=
  match l with
  | [] => true
  | WgInstr.print _ :: rest => bodyOk rest
  | WgInstr.done :: rest => bodyOk rest
  | _ :: _ => false

/-- Steps a statement accounts for: starting a goroutine also brings its two
statements. -/
def wgWeight (instr : WgInstr) : Nat :=
  match instr with
  | WgInstr.go _ => 3
  | _ => 1

/-- A bound on the number of steps still to come. -/
def wgMeasure (s : WgState) : Nat := (s.main.map wgWeight).sum + (s.gs.map List.length).sum

/-- The invariant of a WaitGroup example. -/
structure WgInv (s : WgState) : Prop where
  noPanic : s.panicked = none
  balance : s.wg.counter = bal s.main + (((s.gs.map owed).sum : Nat) : Int)
  mainOk : nonNeg s.main = true
  waitOk : quietAfterWait s.main = true
  bodies : ∀ (i : Nat) (g : List WgInstr), s.gs[i]? = some g → bodyOk g = true
  ghost : s.wg.counter = s.adds - s.dones
  afterWait : s.waited = true → quiet s.main = true ∧ s.wg.counter = 0
  waitDue : s.waited = true ∨ WgInstr.wait ∈ s.main

/-- A statement list to which the analysis applies: balanced, no `Done` before its
`Add`, a `Wait`, and nothing but printing after it. -/
def wgBalanced (prog : List WgInstr) : Bool :=
  decide (bal prog = 0) && nonNeg prog && quietAfterWait prog && decide (WgInstr.wait ∈ prog)

/-- A complete run of `correctWay`: the three goroutines are started, run one after
the other in the order 2, 0, 1, and then `Wait` returns. -/
def wgSchedule : List WgActor :=
  [WgActor.main, WgActor.main, WgActor.main, WgActor.main,
   WgActor.goroutine 2, WgActor.goroutine 2, WgActor.goroutine 0, WgActor.goroutine 1,
   WgActor.goroutine 0, WgActor.goroutine 1, WgActor.main, WgActor.main]

/-- The state `correctWay` ends in under `wgSchedule`. -/
def wgFinal : WgState :=
  { wg := { counter := 0 }, main := [], gs := [[], [], []], adds := 3, dones := 3,
    waited := true,
    out := ["Goroutine 2 执行\n", "Goroutine 0 执行\n", "Goroutine 1 执行\n",
            "所有 goroutine 完成\n"],
    panicked := none }

/-! ## `workerPool` (examples/channel_receive_closed.go) -/

/-- The jobs sent by `for j := 1; j <= 5; j++`. -/
def poolJobs : List Int := [1, 2, 3, 4, 5]

/-- The worker ids of `for w := 1; w <= 3; w++`. -/
def poolIds : List Nat := [1, 2, 3]

/-- The value `job * 2` a worker sends, computed in `int`. -/
def double (job : Int) : Int := wrapInt (job * 2)

/-- Where the main goroutine of `workerPool` stands: in the loop starting workers (ids
still to start), in the loop sending jobs (jobs still to send), at `close(jobs)`, in
the loop receiving results (number still to receive), or returned. -/
inductive PoolMain where
  | spawning (ids : List Nat) : PoolMain
  | sending (todo : List Int) : PoolMain
  | closing : PoolMain
  | receiving (left : Nat) : PoolMain
  | returned : PoolMain
deriving DecidableEq

/-- Where a worker stands: at the receive of `for job := range jobs`; at the `Printf`
with the job it received; at `results <- job * 2`; at the `Printf` after the loop;
exited. -/
inductive WorkerPc where
  | atRange : WorkerPc
  | atPrintf (job : Int) : WorkerPc
  | atSend (job : Int) : WorkerPc
  | atExit : WorkerPc
  | exited : WorkerPc
deriving DecidableEq

/-- A started worker goroutine: its `id` argument and where it stands. -/
structure Worker where
  id : Nat
  pc : WorkerPc
deriving DecidableEq

/-- State of `workerPool`: the buffers of the channels `jobs` and `results` (both of
capacity 5, oldest value first), whether `jobs` is closed, the goroutines, the lines
"Worker id 处理任务 job" printed so far (as pairs), the results the main goroutine has
received, and the panic that escaped, if any. -/
structure PoolState where
  jobs : List Int
  jobsClosed : Bool
  results : List Int
  main : PoolMain
  workers : List Worker
  log : List (Nat × Int)
  collected : List Int
  panicked : Option String
deriving DecidableEq

/-- Who makes a step: the main goroutine or the `i`-th started worker. -/
inductive PoolActor where
  | main : PoolActor
  | worker (i : Nat) : PoolActor
deriving DecidableEq

/-- Before the first loop of `workerPool`, the two channels just made. -/
def workerPool : PoolState :=
  { jobs := [], jobsClosed := false, results := [], main := PoolMain.spawning poolIds,
    workers := [], log := [], collected := [], panicked := none }

/-- One step of the main goroutine. `none`: it has returned or is blocked. -/
def poolMainStep (s : PoolState) : Option PoolState :=
  match s.main with
  | PoolMain.spawning (id :: ids) =>
    some { s with workers := s.workers ++ [{ id := id, pc := WorkerPc.atRange }]
                  main := PoolMain.spawning ids }
  | PoolMain.spawning [] => some { s with main := PoolMain.sending poolJobs }
  | PoolMain.sending (j :: todo) =>
    if s.jobsClosed = true then some { s with panicked := some "send on closed channel" }
    else if s.jobs.length < 5 then
      some { s with jobs := s.jobs ++ [j], main := PoolMain.sending todo }
    else none
  | PoolMain.sending [] => some { s with main := PoolMain.closing }
  | PoolMain.closing =>
    if s.jobsClosed = true then some { s with panicked := some "close of closed channel" }
    else some { s with jobsClosed := true, main := PoolMain.receiving 5 }
  | PoolMain.receiving (left + 1) =>
    match s.results with
    | [] => none
    | r :: rest =>
      some { s with results := rest, collected := s.collected ++ [r]
                    main := PoolMain.receiving left }
  | PoolMain.receiving 0 => some { s with main := PoolMain.returned }
  | PoolMain.returned => none

/-- One step of worker `w`, the `i`-th started. `none`: it has exited or is blocked. -/
def poolWorkerStep (s : PoolState) (i : Nat) (w : Worker) : Option PoolState :=
  match w.pc with
  | WorkerPc.atRange =>
    match s.jobs with
    | job :: rest =>
      some { s with jobs := rest
                    workers := s.workers.set i { w with pc := WorkerPc.atPrintf job } }
    | [] =>
      if s.jobsClosed = true then
        some { s with workers := s.workers.set i { w with pc := WorkerPc.atExit } }
      else none
  | WorkerPc.atPrintf job =>
    some { s with log := s.log ++ [(w.id, job)]
                  workers := s.workers.set i { w with pc := WorkerPc.atSend job } }
  | WorkerPc.atSend job =>
    if s.results.length < 5 then
      some { s with results := s.results ++ [double job]
                    workers := s.workers.set i { w with pc := WorkerPc.atRange } }
    else none
  | WorkerPc.atExit =>
    some { s with workers := s.workers.set i { w with pc := WorkerPc.exited } }
  | WorkerPc.exited => none

/-- One step of the chosen goroutine; nothing moves after a panic has escaped. -/
def poolStep (s : PoolState) (a : PoolActor) : Option PoolState :=
  match s.panicked with
  | some _ => none
  | none =>
    match a with
    | PoolActor.main => poolMainStep s
    | PoolActor.worker i =>
      match s.workers[i]? with
      | none => none
      | some w => poolWorkerStep s i w

/-- Run a schedule; `none` when it names a goroutine that cannot move. -/
def poolExec (s : PoolState) (sched : List PoolActor) : Option PoolState :=
  match sched with
  | [] => some s
  | a :: rest =>
    match poolStep s a with
    | none => none
    | some s1 => poolExec s1 rest

/-- Jobs the main goroutine has not sent yet. -/
def unsent (m : PoolMain) : List Int :=
  match m with
  | PoolMain.spawning _ => poolJobs
  | PoolMain.sending todo => todo
  | _ => []

/-- The job a worker holds: received from `jobs`, its result not yet sent. -/
def held (w : Worker) : List Int :=
  match w.pc with
  | WorkerPc.atPrintf job => [job]
  | WorkerPc.atSend job => [job]
  | _ => []

/-- The job a worker has received but not yet printed. -/
def unlogged (w : Worker) : List Int :=
  match w.pc with
  | WorkerPc.atPrintf job => [job]
  | _ => []

/-- Whether a worker has left its loop (1) or not (0). -/
def leftLoop (w : Worker) : Nat :=
  match w.pc with
  | WorkerPc.atExit => 1
  | WorkerPc.exited => 1
  | _ => 0

/-- Steps a worker still makes without receiving a further job. -/
def workerLeft (w : Worker) : Nat :=
  match w.pc with
  | WorkerPc.atRange => 2
  | WorkerPc.atPrintf _ => 4
  | WorkerPc.atSend _ => 3
  | WorkerPc.atExit => 1
  | WorkerPc.exited => 0

/-- Steps the main goroutine still makes, with those its actions cause in workers. -/
def mainLeft (m : PoolMain) : Nat :=
  match m with
  | PoolMain.spawning ids => 3 * ids.length + 29
  | PoolMain.sending todo => 4 * todo.length + 8
  | PoolMain.closing => 7
  | PoolMain.receiving left => left + 1
  | PoolMain.returned => 0

/-- A bound on the number of steps `workerPool` can still make. -/
def poolMeasure (s : PoolState) : Nat :=
  mainLeft s.main + 3 * s.jobs.length + (s.workers.map workerLeft).sum

/-- Workers the main goroutine has not started yet. -/
def unstarted (m : PoolMain) : Nat :=
  match m with
  | PoolMain.spawning ids => ids.length
  | _ => 0

/-- Whether `close(jobs)` has been executed, read off the main goroutine's position. -/
def pastClose (m : PoolMain) : Bool :=
  match m with
  | PoolMain.receiving _ => true
  | PoolMain.returned => true
  | _ => false

/-- Results the main goroutine still has to receive. -/
def toCollect (m : PoolMain) : Nat :=
  match m with
  | PoolMain.receiving left => left
  | PoolMain.returned => 0
  | _ => 5

/-- Number of jobs a worker holds (0 or 1). -/
def heldLen (w : Worker) : Nat := (held w).length

/-- Number of times `v` is the result of the job a worker holds. -/
def heldCount (v : Int) (w : Worker) : Nat := ((held w).map double).count v

/-- Number of times `v` is the job a worker has received but not yet printed. -/
def unloggedCount (v : Int) (w : Worker) : Nat := (unlogged w).count v

/-- The invariant of `workerPool`. -/
structure PoolInv (s : PoolState) : Prop where
  noPanic : s.panicked = none
  size : (unsent s.main).length + s.jobs.length + (s.workers.map heldLen).sum
    + s.results.length + s.collected.length = 5
  values : ∀ v : Int, ((unsent s.main).map double).count v + (s.jobs.map double).count v
    + (s.workers.map (heldCount v)).sum
    + s.results.count v + s.collected.count v = (poolJobs.map double).count v
  logged : ∀ v : Int, (unsent s.main).count v + s.jobs.count v
    + (s.workers.map (unloggedCount v)).sum
    + (s.log.map Prod.snd).count v = poolJobs.count v
  started : s.workers.length + unstarted s.main = 3
  closedIff : s.jobsClosed = pastClose s.main
  collecting : s.collected.length + toCollect s.main = 5
  drained : 0 < (s.workers.map leftLoop).sum → s.jobsClosed = true ∧ s.jobs = []

/-- A complete run of `workerPool`: the workers are started, the five jobs are sent and
`jobs` is closed; the worker with id 2 takes jobs 1 and 4, the one with id 3 takes jobs
2 and 5, the one with id 1 takes job 3; the main goroutine then receives the five
results. -/
def poolSchedule : List PoolActor :=
  [PoolActor.main, PoolActor.main, PoolActor.main, PoolActor.main,
   PoolActor.main, PoolActor.main, PoolActor.main, PoolActor.main, PoolActor.main,
   PoolActor.main, PoolActor.main,
   PoolActor.worker 1, PoolActor.worker 2, PoolActor.worker 0,
   PoolActor.worker 2, PoolActor.worker 2, PoolActor.worker 1, PoolActor.worker 0,
   PoolActor.worker 1, PoolActor.worker 0,
   PoolActor.worker 1, PoolActor.worker 2,
   PoolActor.worker 1, PoolActor.worker 1, PoolActor.worker 2, PoolActor.worker 2,
   PoolActor.main, PoolActor.main, PoolActor.main, PoolActor.main, PoolActor.main,
   PoolActor.main]

/-- The state `poolSchedule` leads to. -/
def poolFinal : PoolState :=
  { jobs := [], jobsClosed := true, results := [], main := PoolMain.returned,
    workers := [{ id := 1, pc := WorkerPc.atRange }, { id := 2, pc := WorkerPc.atRange },
                { id := 3, pc := WorkerPc.atRange }],
    log := [(3, 2), (2, 1), (1, 3), (2, 4), (3, 5)],
    collected := [4, 2, 6, 8, 10], panicked := none }

/-! ## Values of the interface type `error` -/

/-- The run-time panic of a nil pointer dereference. -/
def nilDeref : String := "runtime error: invalid memory address or nil pointer dereference"

/-- The struct `ValidationError` of error_handling.go. -/
structure ValidationError where
  Field : String
  Message : String
deriving DecidableEq

/-- The struct `MyError` of interface_nil.go. -/
structure MyError where
  msg : String
deriving DecidableEq

/-- A value of the interface type `error`: the nil interface, or a dynamic type with
its value. A pointer is modelled by `none` (the nil pointer) or the struct it points
to. The dynamic types are those the examples meet: `*errors.errorString` (made by
`errors.New` and by `fmt.Errorf` without `%w`), `*fmt.wrapError` (made by `fmt.Errorf`
with `%w`), `*os.PathError` (made by `os.Open`), `*ValidationError`, `*MyError`, and
any other type, which has no `Unwrap` method and whose `Error()` gives `text`. -/
inductive GoError where
  | nil : GoError
  | errorString (s : String) : GoError
  | wrapError (msg : String) (err : GoError) : GoError
  | pathError (op : String) (path : String) (err : GoError) : GoError
  | validationError (p : Option ValidationError) : GoError
  | myError (p : Option MyError) : GoError
  | other (text : String) : GoError
deriving DecidableEq

/-- The test `err == nil` on an interface value: true only for the nil interface. -/
def GoError.isNil (e : GoError) : Bool :=
  match e with
  | GoError.nil => true
  | _ => false

/-- Whether the interface holds a nil pointer, as `fmt` asks when `Error()` panics. -/
def GoError.holdsNilPointer (e : GoError) : Bool :=
  match e with
  | GoError.validationError none => true
  | GoError.myError none => true
  | _ => false

/-- Method `(e *ValidationError) Error()`: `fmt.Sprintf("%s: %s", e.Field, e.Message)`;
reading a field through a nil receiver panics. -/
def ValidationError.Error (e : Option ValidationError) : Outcome String :=
  match e with
  | none => Outcome.panic nilDeref
  | some v => Outcome.ok (v.Field ++ ": " ++ v.Message)

/-- Method `(e *MyError) Error()`: `"nil error"` on a nil receiver, else `e.msg`. -/
def MyError.Error (e : Option MyError) : Outcome String :=
  match e with
  | none => Outcome.ok "nil error"
  | some v => Outcome.ok v.msg

/-- The call `err.Error()` on an interface value; on the nil interface it panics. -/
def GoError.Error (e : GoError) : Outcome String :=
  match e with
  | GoError.nil => Outcome.panic nilDeref
  | GoError.errorString s => Outcome.ok s
  | GoError.wrapError msg _ => Outcome.ok msg
  | GoError.pathError op path err =>
    match err.Error with
    | Outcome.ok s => Outcome.ok (op ++ " " ++ path ++ ": " ++ s)
    | Outcome.panic m => Outcome.panic m
    | Outcome.blocked => Outcome.blocked
  | GoError.validationError p => ValidationError.Error p
  | GoError.myError p => MyError.Error p
  | GoError.other text => Outcome.ok text

/-- What `fmt` prints for an `error` operand under `%v`: `<nil>` for the nil
interface, else the text of `Error()`; a panic of `Error()` is caught by `fmt`. -/
def fmtV (e : GoError) : String :=
  match e with
  | GoError.nil => "<nil>"
  | _ =>
    match e.Error with
    | Outcome.ok s => s
    | Outcome.panic m =>
      if e.holdsNilPointer = true then "<nil>"
      else "%!v(PANIC=Error method: " ++ m ++ ")"
    | Outcome.blocked => ""

/-- The call `fmt.Errorf(lead + "%w", err)`: a `*fmt.wrapError` holding the text and
`err`; with a nil operand `%w` is a bad verb and nothing is wrapped. -/
def errorfW (lead : String) (err : GoError) : GoError :=
  match err with
  | GoError.nil => GoError.errorString (lead ++ "%!w(<nil>)")
  | _ => GoError.wrapError (lead ++ fmtV err) err

/-- The call `fmt.Errorf(text)` with no `%w`: an error made by `errors.New`. -/
def errorfPlain (text : String) : GoError := GoError.errorString text

/-- The call `errors.Unwrap(err)`: the result of the `Unwrap() error` method of the
dynamic type when it has one, else nil. -/
def errorsUnwrap (e : GoError) : GoError :=
  match e with
  | GoError.wrapError _ err => err
  | GoError.pathError _ _ err => err
  | _ => GoError.nil

/-- The call `errors.As(err, &valErr)` with `valErr` of type `*ValidationError`:
`some p` when an error of that dynamic type is found along the chain of `Unwrap`
(`valErr` is then set to `p` and the call returns true), `none` when it returns
false. -/
def errorsAsValidation (e : GoError) : Option (Option ValidationError) :=
  match e with
  | GoError.validationError p => some p
  | GoError.wrapError _ err => errorsAsValidation err
  | GoError.pathError _ _ err => errorsAsValidation err
  | _ => none

/-! ## `validate` / `processFile` / `processFile2` (examples/error_handling.go) -/

/-- Function `validate(data)`. -/
def validate (data : String) : GoError :=
  if data = "" then GoError.validationError (some { Field := "data", Message := "不能为空" })
  else GoError.nil

/-- Function `demonstrateCustomError`; the result is what it prints. -/
def demonstrateCustomError : Outcome (List String) :=
  let err := validate ""
  if err.isNil = true then Outcome.ok []
  else
    match errorsAsValidation err with
    | none => Outcome.ok []
    | some none => Outcome.panic nilDeref
    | some (some valErr) =>
      Outcome.ok ["验证错误 - 字段: " ++ valErr.Field ++ ", 消息: " ++ valErr.Message ++ "\n"]

/-- An `*os.File`: its name and whether it has been closed. -/
structure File where
  name : String
  closed : Bool
deriving DecidableEq

/-- The two results of `os.Open`. -/
structure OpenResult where
  file : Option File
  err : GoError
deriving DecidableEq

/-- Method `(f *File) Close()`, its returned error dropped as the `defer` does. -/
def File.Close (f : Option File) : Option File :=
  match f with
  | none => none
  | some x => some { x with closed := true }

/-- Function `processFile(filename)`, the trap; `osOpen` stands for `os.Open` on the
file system at hand. The result is the returned error and the file afterwards. -/
def processFile (osOpen : String → OpenResult) (filename : String) : GoError × Option File :=
  let r := osOpen filename
  if r.err.isNil = true then (GoError.nil, File.Close r.file)
  else (errorfPlain "无法处理文件", r.file)

/-- Function `processFile2(filename)`; `osOpen` stands for `os.Open`. -/
def processFile2 (osOpen : String → OpenResult) (filename : String) : GoError × Option File :=
  let r := osOpen filename
  if r.err.isNil = true then (GoError.nil, File.Close r.file)
  else (errorfW "打开文件失败: " r.err, r.file)

/-- What `correctWay3` computes: `err`, `wrapped`, `original` (the last two nil when
the branch is not taken) and the output. -/
structure Way3 where
  err : GoError
  wrapped : GoError
  original : GoError
  out : List String
deriving DecidableEq

/-- Function `correctWay3` of error_handling.go. -/
def correctWay3 (osOpen : String → OpenResult) : Way3 :=
  let err := (processFile2 osOpen "test.txt").1
  if err.isNil = true then { err := err, wrapped := GoError.nil, original := GoError.nil, out := [] }
  else
    let wrapped := errorfW "处理失败: " err
    let original := errorsUnwrap wrapped
    { err := err, wrapped := wrapped, original := original
      out := ["包装后的错误: " ++ fmtV wrapped ++ "\n", "原始错误: " ++ fmtV original ++ "\n"] }

/-- A file system without `test.txt`: `os.Open` fails with a `*os.PathError`. -/
def noSuchFile (filename : String) : OpenResult :=
  { file := none
    err := GoError.pathError "open" filename (GoError.other "no such file or directory") }

/-- A file system in which every file can be opened. -/
def everyFile (filename : String) : OpenResult :=
  { file := some { name := filename, closed := false }, err := GoError.nil }

/-! ## `defer`, `panic` and `recover` -/

/-- A running function call: the variables its deferred closures can reach (named
results, captured locals, the slot of an unnamed result) and the value of the panic in
progress, if there is one. -/
structure Frame (σ : Type) where
  vars : σ
  panicking : Option String

/-- The call `recover()` made directly by a deferred function: it returns the value of
the panic in progress (`none` for nil) and stops the panic. -/
def Frame.recover {σ : Type} (f : Frame σ) : Option String × Frame σ :=
  (f.panicking, { f with panicking := none })

/-- Run the deferred calls when the body has ended by `return` or by a panic; the
stack has the call deferred last at its head, and it runs first. -/
def runDeferred {σ : Type} (stack : List (Frame σ → Frame σ)) (f : Frame σ) : Frame σ :=
  match stack with
  | [] => f
  | d :: rest => runDeferred rest (d f)

/-- The end of the call, after the deferred calls: the panic goes on to the caller if
it is still in progress, else the call returns its result. -/
def Frame.finish {σ ρ : Type} (f : Frame σ) (result : σ → ρ) : Outcome ρ :=
  match f.panicking with
  | some v => Outcome.panic v
  | none => Outcome.ok (result f.vars)

/-- The `int` a call returned, when it returned. -/
def intResult (o : Outcome GoInt) : Option Int :=
  match o with
  | Outcome.ok v => some v.val
  | Outcome.panic _ => none
  | Outcome.blocked => none

/-! ## `returnValue1` / `returnValue2` / `errorHandling` (examples/defer_order.go) -/

/-- The deferred closure of `returnValue1`: `result++` on the named result. -/
def returnValue1Deferred (f : Frame GoInt) : Frame GoInt :=
  { f with vars := f.vars.inc }

/-- The frame of `returnValue1` when `return 1` has assigned the named result
`result` (zero at entry) and the deferred closure has not run yet. -/
def returnValue1AtReturn : Frame GoInt :=
  let entry : Frame GoInt := { vars := GoInt.zero, panicking := none }
  { entry with vars := GoInt.ofInt 1 }

/-- Function `returnValue1()`. -/
def returnValue1 : Outcome GoInt :=
  (runDeferred [returnValue1Deferred] returnValue1AtReturn).finish (fun result => result)

/-- The variables of `returnValue2`: the local `result` and the unnamed result slot. -/
structure Value2Vars where
  result : GoInt
  ret : GoInt

/-- The deferred closure of `returnValue2`: `result++` on the local variable. -/
def returnValue2Deferred (f : Frame Value2Vars) : Frame Value2Vars :=
  { f with vars := { f.vars with result := f.vars.result.inc } }

/-- The frame of `returnValue2` when `result := 1` has run and `return result` has
copied the local into the result slot, the deferred closure not having run yet. -/
def returnValue2AtReturn : Frame Value2Vars :=
  let afterAssign : Frame Value2Vars :=
    { vars := { result := GoInt.ofInt 1, ret := GoInt.zero }, panicking := none }
  { afterAssign with vars := { afterAssign.vars with ret := afterAssign.vars.result } }

/-- Function `returnValue2()`. -/
def returnValue2 : Outcome GoInt :=
  (runDeferred [returnValue2Deferred] returnValue2AtReturn).finish (fun v => v.ret)

/-- The deferred closure of `errorHandling`:
`if r := recover(); r != nil { err = fmt.Errorf("panic: %v", r) }`. -/
def errorHandlingDeferred (f : Frame GoError) : Frame GoError :=
  match f.recover with
  | (some r, f1) => { f1 with vars := errorfPlain ("panic: " ++ r) }
  | (none, f1) => f1

/-- The frame of `errorHandling` at `panic("测试错误")`: the named result `err` is still
nil, the panic is in progress (the `return nil` after it is never reached). -/
def errorHandlingAtPanic : Frame GoError :=
  let entry : Frame GoError := { vars := GoError.nil, panicking := none }
  { entry with panicking := some "测试错误" }

/-- Function `errorHandling()`. -/
def errorHandling : Outcome GoError :=
  (runDeferred [errorHandlingDeferred] errorHandlingAtPanic).finish (fun err => err)

/-! ## `Person` / `GetName` / `safeGetName` (examples/pointer_nil.go) -/

/-- The struct `Person`. -/
structure Person where
  Name : String
  Age : GoInt

/-- The expression `p.Name` for `p` of type `*Person`: through a nil pointer the read
panics. -/
def Person.readName (p : Option Person) : Outcome String :=
  match p with
  | none => Outcome.panic nilDeref
  | some x => Outcome.ok x.Name

/-- Method `(p *Person) GetName()`: `return p.Name`. -/
def Person.GetName (p : Option Person) : Outcome String := Person.readName p

/-- Function `safeGetName(p)`: `if p == nil { return "未知" }`, then `return p.Name`. -/
def safeGetName (p : Option Person) : Outcome String :=
  if p.isNone = true then Outcome.ok "未知" else Person.readName p

/-- A person, for the examples. -/
def somePerson : Person := { Name := "Ann", Age := GoInt.ofInt 30 }

/-! ## Nil pointers in interfaces (examples/interface_nil.go) -/

/-- The struct `MyWriter`. -/
structure MyWriter where
  data : List Nat
deriving DecidableEq

/-- A value of the interface type `Writer`: nil, or a `*MyWriter`. -/
inductive Writer where
  | nil : Writer
  | myWriter (p : Option MyWriter) : Writer
deriving DecidableEq

/-- The test `w == nil` on a `Writer`. -/
def Writer.isNil (w : Writer) : Bool :=
  match w with
  | Writer.nil => true
  | Writer.myWriter _ => false

/-- Function `trap1` of interface_nil.go; the result is what it prints. -/
def trap1 : List String :=
  let mw : Option MyWriter := none
  let line1 := "mw == nil: " ++ toString mw.isNone ++ "\n"
  let w : Writer := Writer.myWriter mw
  [line1, "w == nil: " ++ toString w.isNil ++ "\n"]

/-- The conversion of a `*MyError` to the interface `error`, as `return err` does. -/
def MyError.toError (p : Option MyError) : GoError := GoError.myError p

/-- Function `returnError()`: `var err *MyError = nil; return err`. -/
def returnError : GoError :=
  let err : Option MyError := none
  MyError.toError err

/-- Function `demonstrateError`; the result is what it prints. -/
def demonstrateError : Outcome (List String) :=
  let err := returnError
  if err.isNil = true then Outcome.ok []
  else
    match err.Error with
    | Outcome.ok text => Outcome.ok ["错误不为 nil\n", text ++ "\n"]
    | Outcome.panic m => Outcome.panic m
    | Outcome.blocked => Outcome.blocked

/-! # Theorems -/

/-! ## Helper lemmas: `int` and maps -/

theorem GoInt.ext_val {a b : GoInt} (h : a.val = b.val) : a = b := by
  cases a; cases b; simp_all

theorem GoInt.ofInt_val (x : Int) : (GoInt.ofInt x).val = wrapInt x := rfl

theorem wrapInt_of_range {x : Int} (h1 : minInt ≤ x) (h2 : x ≤ maxInt) : wrapInt x = x := by
  unfold wrapInt; unfold minInt at h1; unfold maxInt at h2; omega

theorem wrapInt_succ (x : Int) : wrapInt (wrapInt x + 1) = wrapInt (x + 1) := by
  unfold wrapInt; omega

theorem GoInt.zero_val : GoInt.zero.val = 0 := by decide

theorem GoInt.inc_val_of_lt (a : GoInt) (h : a.val < maxInt) : a.inc.val = a.val + 1 := by
  have hlo := a.lo
  show wrapInt (a.val + 1) = a.val + 1
  apply wrapInt_of_range
  · unfold minInt at *; omega
  · omega

theorem GoMap.lookup_absent_val (m : GoMap) (key : String) (h : (m.lookup key).2 = false) :
    (m.lookup key).1 = GoInt.zero := by
  cases m with
  | nil => rfl
  | table t =>
    simp only [GoMap.lookup] at h ⊢
    cases ht : t key <;> simp_all

/-! ## Helper lemmas: `SafeCounter` -/

theorem Increment_table (c : SafeCounter) (key : String) (t : String → Option GoInt)
    (hmu : c.mu = RWMutex.zero) (hc : c.count = GoMap.table t) :
    Increment c key = Outcome.ok
      { mu := RWMutex.zero,
        count := GoMap.table (fun k => if k = key then some (c.count.index key).inc else t k) } := by
  simp [Increment, hmu, hc, RWMutex.Lock, RWMutex.Unlock, RWMutex.zero, GoMap.assign]

theorem Increment_busy (c : SafeCounter) (key : String) (hmu : c.mu ≠ RWMutex.zero) :
    Increment c key = Outcome.blocked := by
  cases c with
  | mk mu count =>
    cases mu with
    | mk w r =>
      have hf : ¬ (w = false ∧ r = 0) := by
        rintro ⟨h1, h2⟩
        subst h1
        subst h2
        exact hmu rfl
      simp only [Increment, RWMutex.Lock, if_neg hf]

theorem Get_unlocked (c : SafeCounter) (key : String) (hmu : c.mu.writer = false) :
    Get c key = Outcome.ok (c.count.index key, c) := by
  cases c with
  | mk mu count =>
    cases mu with
    | mk w r =>
      simp at hmu
      simp [Get, RWMutex.RLock, RWMutex.RUnlock, hmu]

theorem Get_locked (c : SafeCounter) (key : String) (hmu : c.mu.writer = true) :
    Get c key = Outcome.blocked := by
  simp [Get, RWMutex.RLock, hmu]

theorem isNil_false_table {m : GoMap} (h : m.isNil = false) : ∃ t, m = GoMap.table t := by
  cases m with
  | nil => simp [GoMap.isNil] at h
  | table t => exact ⟨t, rfl⟩

theorem runCall_keeps (c : SafeCounter) (call : Call)
    (hmu : c.mu = RWMutex.zero) (hc : c.count.isNil = false) :
    ∃ c1, runCall c call = Outcome.ok c1 ∧ c1.mu = RWMutex.zero ∧ c1.count.isNil = false := by
  obtain ⟨t, ht⟩ := isNil_false_table hc
  cases call with
  | increment key =>
    exact ⟨_, Increment_table c key t hmu ht, rfl, rfl⟩
  | get key =>
    have hw : c.mu.writer = false := by rw [hmu]; rfl
    refine ⟨c, ?_, hmu, hc⟩
    simp [runCall, Get_unlocked c key hw]

theorem runCall_present (c : SafeCounter) (call : Call) (c1 : SafeCounter) (key : String)
    (h : runCall c call = Outcome.ok c1) (hk : (c.count.lookup key).2 = true) :
    (c1.count.lookup key).2 = true := by
  cases call with
  | increment k =>
    simp only [runCall, Increment] at h
    split at h
    · cases h
    · split at h
      · cases h
      · rename_i cnt hcnt
        split at h
        · cases h
        · injection h with h
          subst h
          cases hm : c.count with
          | nil => rw [hm] at hk; simp [GoMap.lookup] at hk
          | table t =>
            rw [hm] at hcnt hk
            simp only [GoMap.assign] at hcnt
            injection hcnt with hcnt
            subst hcnt
            simp only [GoMap.lookup] at hk ⊢
            by_cases hkk : key = k
            · simp [hkk]
            · simp only [hkk, if_false]
              exact hk
  | get k =>
    simp only [runCall, Get] at h
    split at h
    · rename_i r hr
      split at hr
      · cases hr
      · split at hr
        · cases hr
        · injection hr with hr
          injection h with h
          subst h
          subst hr
          exact hk
    · cases h
    · cases h

/-! ## `SafeCounter`: sequential contract (C2 – C6) -/

/-- C2 (counterexample). `Increment` does not make the counter one greater in every
counter state: on the zero value `SafeCounter{}` (nil map) it panics, and when the
counter of the key is the largest `int` the result wraps to the smallest `int`. -/
theorem Increment_not_always_plus_one :
    Increment zeroSafeCounter "a" = Outcome.panic "assignment to entry in nil map" ∧
    (counterAtMax.count.index "a").val = maxInt ∧
    (∃ c1, Increment counterAtMax "a" = Outcome.ok c1 ∧
      (c1.count.index "a").val = minInt) := by
  refine ⟨rfl, by decide, ?_⟩
  refine ⟨_, Increment_table counterAtMax "a" _ rfl rfl, ?_⟩
  decide

/-- C2 (amended). In every counter state whose map is constructed, for every key whose
counter is below the largest `int`: `Increment(k)` never panics, it returns as soon as
the lock is free, and when it has returned the counter of `k` is exactly one greater
than before, an absent key counting as 0 (so its first `Increment` leaves it at 1); the
key exists afterwards, the other keys are untouched and the lock is as before. -/
theorem Increment_adds_one (c : SafeCounter) (k : String)
    (hmap : c.count.isNil = false) (hmax : (c.count.index k).val < maxInt) :
    (c.mu = RWMutex.zero → ∃ c1, Increment c k = Outcome.ok c1) ∧
    (∀ msg, Increment c k ≠ Outcome.panic msg) ∧
    (∀ c1, Increment c k = Outcome.ok c1 →
      (c1.count.index k).val = (c.count.index k).val + 1 ∧
      ((c.count.lookup k).2 = false → (c1.count.index k).val = 1) ∧
      (c1.count.lookup k).2 = true ∧
      (∀ k1, k1 ≠ k → c1.count.lookup k1 = c.count.lookup k1) ∧
      c1.mu = c.mu) := by
  obtain ⟨t, ht⟩ := isNil_false_table hmap
  have hbusy : c.mu ≠ RWMutex.zero → Increment c k = Outcome.blocked :=
    Increment_busy c k
  refine ⟨fun hmu => ⟨_, Increment_table c k t hmu ht⟩, ?_, ?_⟩
  · intro msg h
    by_cases hmu : c.mu = RWMutex.zero
    · rw [Increment_table c k t hmu ht] at h
      cases h
    · rw [hbusy hmu] at h
      cases h
  · intro c1 h
    have hmu : c.mu = RWMutex.zero := by
      by_contra hne
      rw [hbusy hne] at h
      cases h
    rw [Increment_table c k t hmu ht] at h
    injection h with h
    subst h
    have h1 : ((GoMap.table (fun k1 => if k1 = k then some (c.count.index k).inc
        else t k1)).index k).val = (c.count.index k).val + 1 := by
      simp only [GoMap.index, GoMap.lookup, if_true]
      exact GoInt.inc_val_of_lt _ hmax
    refine ⟨h1, ?_, ?_, ?_, hmu.symm⟩
    · intro habs
      rw [h1]
      have hz := GoMap.lookup_absent_val c.count k habs
      simp only [GoMap.index, hz, GoInt.zero_val]
      rfl
    · simp [GoMap.lookup]
    · intro k1 hk1
      simp [GoMap.lookup, ht, hk1]

/-- C2 (witness): the first `Increment` of an absent key on a fresh counter. -/
theorem Increment_adds_one_witness :
    (∃ c1, Increment NewSafeCounter "test" = Outcome.ok c1) ∧
    (∀ c1, Increment NewSafeCounter "test" = Outcome.ok c1 →
      (c1.count.index "test").val = (NewSafeCounter.count.index "test").val + 1 ∧
      ((NewSafeCounter.count.lookup "test").2 = false → (c1.count.index "test").val = 1) ∧
      (c1.count.lookup "test").2 = true ∧
      (∀ k1, k1 ≠ "test" → c1.count.lookup k1 = NewSafeCounter.count.lookup k1) ∧
      c1.mu = NewSafeCounter.mu) :=
  ⟨(Increment_adds_one NewSafeCounter "test" rfl (by decide)).1 rfl,
   (Increment_adds_one NewSafeCounter "test" rfl (by decide)).2.2⟩

/-- C3 (counterexample). `Get` returns one `int` and nothing else, and that `int` is
no found flag: a store without `"a"` and a store holding `"a"` at 0 give the same
result, so no function of what `Get` returns tells whether the key exists. -/
theorem Get_has_no_found_flag :
    ¬ ∃ found : Int → Bool, ∀ (c : SafeCounter) (k : String), c.mu.writer = false →
        ∃ v, returned (Get c k) = some v ∧ found v = (c.count.lookup k).2 := by
  rintro ⟨found, h⟩
  obtain ⟨v1, hv1, hf1⟩ := h NewSafeCounter "a" rfl
  obtain ⟨v2, hv2, hf2⟩ := h counterStoredZero "a" rfl
  have e1 : returned (Get NewSafeCounter "a") = some 0 := by decide
  have e2 : returned (Get counterStoredZero "a") = some 0 := by decide
  have l1 : (NewSafeCounter.count.lookup "a").2 = false := by decide
  have l2 : (counterStoredZero.count.lookup "a").2 = true := by decide
  rw [e1] at hv1
  rw [e2] at hv2
  injection hv1 with hv1
  injection hv2 with hv2
  rw [← hv1, l1] at hf1
  rw [← hv2, l2] at hf2
  rw [hf1] at hf2
  cases hf2

/-- C3 (amended). In every counter state, `Get(k)` returns a single `int` and no found
flag: whenever it returns (it does as soon as no writer holds the lock), the value is
the stored value of `k` when `k` exists and 0 when it does not (also on a nil map). -/
theorem Get_returns_value_or_zero (c : SafeCounter) (k : String) :
    (c.mu.writer = false → ∃ v, Get c k = Outcome.ok (v, c)) ∧
    (∀ v c1, Get c k = Outcome.ok (v, c1) →
      v = (c.count.lookup k).1 ∧ ((c.count.lookup k).2 = false → v.val = 0)) := by
  refine ⟨fun hmu => ⟨_, Get_unlocked c k hmu⟩, ?_⟩
  intro v c1 h
  cases hw : c.mu.writer with
  | true =>
    rw [Get_locked c k hw] at h
    cases h
  | false =>
    rw [Get_unlocked c k hw] at h
    injection h with h
    injection h with h1 h2
    subst h1
    refine ⟨rfl, fun habs => ?_⟩
    simp only [GoMap.index, GoMap.lookup_absent_val c.count k habs, GoInt.zero_val]

/-- C3 (witness): reading the stored 0 and reading an absent key both give 0. -/
theorem Get_returns_value_or_zero_witness :
    (∃ v, Get counterStoredZero "a" = Outcome.ok (v, counterStoredZero)) ∧
    (∀ v c1, Get NewSafeCounter "a" = Outcome.ok (v, c1) →
      v = (NewSafeCounter.count.lookup "a").1 ∧
      ((NewSafeCounter.count.lookup "a").2 = false → v.val = 0)) :=
  ⟨(Get_returns_value_or_zero counterStoredZero "a").1 rfl,
   (Get_returns_value_or_zero NewSafeCounter "a").2⟩

/-- C4. `Get(k)` leaves the store unchanged, for every counter state and key: whenever
it returns, the counter after the call is the counter before it (same keys, same
values, lock as before), a key that was absent is still absent; it never panics; it
returns whenever no writer holds the lock and otherwise waits. -/
theorem Get_leaves_store_unchanged (c : SafeCounter) (k : String) :
    (∀ v c1, Get c k = Outcome.ok (v, c1) →
      c1 = c ∧ (∀ k1, c1.count.lookup k1 = c.count.lookup k1) ∧
      c1.count.isNil = c.count.isNil ∧
      ((c.count.lookup k).2 = false → (c1.count.lookup k).2 = false)) ∧
    (∀ msg, Get c k ≠ Outcome.panic msg) ∧
    (c.mu.writer = false → ∃ v, Get c k = Outcome.ok (v, c)) ∧
    (c.mu.writer = true → Get c k = Outcome.blocked) := by
  cases hw : c.mu.writer with
  | false =>
    have hg := Get_unlocked c k hw
    refine ⟨?_, ?_, fun _ => ⟨_, hg⟩, fun h => absurd h (by decide)⟩
    · intro v c1 h
      rw [hg] at h
      injection h with h
      injection h with h1 h2
      subst h2
      exact ⟨rfl, fun _ => rfl, rfl, fun h => h⟩
    · intro msg h
      rw [hg] at h
      cases h
  | true =>
    have hg := Get_locked c k hw
    refine ⟨?_, ?_, fun h => absurd h (by decide), fun _ => hg⟩
    · intro v c1 h
      rw [hg] at h
      cases h
    · intro msg h
      rw [hg] at h
      cases h

/-- C4 (witness): reading a missing key of a fresh counter does not create it. -/
theorem Get_leaves_store_unchanged_witness :
    (∃ v, Get NewSafeCounter "missing" = Outcome.ok (v, NewSafeCounter)) ∧
    (NewSafeCounter.count.lookup "missing").2 = false :=
  ⟨(Get_leaves_store_unchanged NewSafeCounter "missing").2.2.1 rfl, by decide⟩

/-- C5. On the counter returned by `NewSafeCounter`, every finite sequence of
`Increment` and `Get` calls runs to its end: no call panics (and none blocks), and the
map is constructed (non-nil) at the start and after every call. -/
theorem NewSafeCounter_calls_never_panic (calls : List Call) :
    NewSafeCounter.count.isNil = false ∧
    ∃ c, runCalls NewSafeCounter calls = Outcome.ok c ∧ c.count.isNil = false := by
  refine ⟨rfl, ?_⟩
  have key : ∀ (l : List Call) (c0 : SafeCounter), c0.mu = RWMutex.zero →
      c0.count.isNil = false →
      ∃ c, runCalls c0 l = Outcome.ok c ∧ c.count.isNil = false := by
    intro l
    induction l with
    | nil => intro c0 _ h; exact ⟨c0, rfl, h⟩
    | cons call rest ih =>
      intro c0 hmu hc
      obtain ⟨c1, h1, hmu1, hc1⟩ := runCall_keeps c0 call hmu hc
      obtain ⟨c2, h2, hc2⟩ := ih c1 hmu1 hc1
      exact ⟨c2, by simp only [runCalls, h1, h2], hc2⟩
  exact key calls NewSafeCounter rfl rfl

/-- C6 (counterexample). `SafeCounter` offers no operation that removes a key: on the
store holding `"a"`, no call of its methods (`Increment`, `Get`, with any key) leaves
`"a"` absent. -/
theorem SafeCounter_offers_no_Delete :
    ¬ ∃ (call : Call) (c1 : SafeCounter),
        runCall counterWithA call = Outcome.ok c1 ∧ (c1.count.lookup "a").2 = false := by
  rintro ⟨call, c1, h, habs⟩
  have hp := runCall_present counterWithA call c1 "a" h (by decide)
  rw [hp] at habs
  cases habs

/-- C6 (amended). `SafeCounter` has no `Delete` method: its methods never remove a key.
The built-in `delete(m, key)` on the underlying `map[string]int` is total (it cannot
fail or panic), removes the key if it is present, leaves all other keys alone, and is
a no-op if the key is absent, including on an empty or nil map. -/
theorem builtin_delete_removes_or_noop (m : GoMap) (k : String) :
    ((m.delete k).lookup k).2 = false ∧
    (∀ k1, k1 ≠ k → (m.delete k).lookup k1 = m.lookup k1) ∧
    ((m.lookup k).2 = false → m.delete k = m) ∧
    (m.delete k).isNil = m.isNil ∧
    (∀ (c c1 : SafeCounter) (call : Call), runCall c call = Outcome.ok c1 →
      (c.count.lookup k).2 = true → (c1.count.lookup k).2 = true) := by
  refine ⟨?_, ?_, ?_, ?_, ?_⟩
  · cases m <;> simp [GoMap.delete, GoMap.lookup]
  · intro k1 hk1
    cases m <;> simp [GoMap.delete, GoMap.lookup, hk1]
  · intro habs
    cases m with
    | nil => rfl
    | table t =>
      simp only [GoMap.delete]
      congr 1
      funext k1
      by_cases hk : k1 = k
      · subst hk
        simp only [GoMap.lookup] at habs
        cases ht : t k1 with
        | none => simp
        | some v => rw [ht] at habs; cases habs
      · simp [hk]
  · cases m <;> rfl
  · intro c c1 call h hk
    exact runCall_present c call c1 k h hk

/-- C6 (witness): `delete` on the nil map, as in `notes` of map_nil_write.go. -/
theorem builtin_delete_removes_or_noop_witness :
    (GoMap.nil.lookup "key").2 = false ∧ GoMap.nil.delete "key" = GoMap.nil :=
  ⟨by decide, (builtin_delete_removes_or_noop GoMap.nil "key").2.2.1 (by decide)⟩

/-! ## Helper lemmas: sums over a list with one entry replaced -/

theorem sum_map_set {α : Type} (f : α → Nat) :
    ∀ (l : List α) (i : Nat) (g g1 : α), l[i]? = some g →
      ((l.set i g1).map f).sum + f g = (l.map f).sum + f g1 := by
  intro l
  induction l with
  | nil => intro i g g1 h; simp at h
  | cons a l ih =>
    intro i g g1 h
    cases i with
    | zero =>
      simp at h
      subst h
      simp only [List.set, List.map, List.sum_cons]
      omega
    | succ n =>
      simp at h
      have := ih n g g1 h
      simp only [List.set, List.map, List.sum_cons]
      omega

theorem le_sum_map {α : Type} (f : α → Nat) :
    ∀ (l : List α) (i : Nat) (g : α), l[i]? = some g → f g ≤ (l.map f).sum := by
  intro l
  induction l with
  | nil => intro i g h; simp at h
  | cons a l ih =>
    intro i g h
    cases i with
    | zero => simp at h; subst h; simp
    | succ n =>
      simp at h
      have := ih n g h
      simp
      omega

theorem two_le_sum_map {α : Type} (f : α → Nat) :
    ∀ (l : List α) (i j : Nat) (g x : α), l[i]? = some g → l[j]? = some x → i ≠ j →
      f g + f x ≤ (l.map f).sum := by
  intro l
  induction l with
  | nil => intro i j g x h; simp at h
  | cons a l ih =>
    intro i j g x hi hj hne
    cases i with
    | zero =>
      cases j with
      | zero => exact absurd rfl hne
      | succ m =>
        simp at hi hj
        subst hi
        have := le_sum_map f l m x hj
        simp
        omega
    | succ n =>
      cases j with
      | zero =>
        simp at hi hj
        subst hj
        have := le_sum_map f l n g hi
        simp
        omega
      | succ m =>
        simp at hi hj
        have := ih n m g x hi hj (by omega)
        simp
        omega

theorem exists_pos_of_sum_pos {α : Type} (f : α → Nat) :
    ∀ (l : List α), 0 < (l.map f).sum → ∃ (i : Nat) (g : α), l[i]? = some g ∧ 0 < f g := by
  intro l
  induction l with
  | nil => intro h; simp at h
  | cons a l ih =>
    intro h
    by_cases ha : 0 < f a
    · exact ⟨0, a, by simp, ha⟩
    · simp only [List.map, List.sum_cons] at h
      obtain ⟨i, g, hg, hp⟩ := ih (by omega)
      exact ⟨i + 1, g, by simpa using hg, hp⟩

theorem sum_map_zero {α : Type} (f : α → Nat) :
    ∀ (l : List α), (∀ (i : Nat) (g : α), l[i]? = some g → f g = 0) → (l.map f).sum = 0 := by
  intro l
  induction l with
  | nil => intro _; rfl
  | cons a l ih =>
    intro h
    have h0 := h 0 a (by simp)
    have := ih (fun i g hg => h (i + 1) g (by simpa using hg))
    simp
    omega

/-! ## Helper lemmas: the system of incrementing goroutines -/

theorem wrapInt_zero : wrapInt 0 = 0 := by decide

theorem incStart_inv (key : String) (calls : List Nat) :
    IncInv key calls.sum (incStart calls) := by
  refine ⟨rfl, rfl, rfl, ?_, ?_, ?_, ?_⟩
  · show (List.map inCritical (incStart calls).gs).sum = 0
    apply sum_map_zero
    intro i g hg
    simp only [incStart, List.getElem?_map] at hg
    cases hc : calls[i]? with
    | none => rw [hc] at hg; cases hg
    | some n => rw [hc] at hg; injection hg with hg; subst hg; rfl
  · intro j g hg hpc
    simp only [incStart, List.getElem?_map] at hg
    cases hc : calls[j]? with
    | none => rw [hc] at hg; cases hg
    | some n => rw [hc] at hg; injection hg with hg; subst hg; exact absurd rfl hpc
  · intro j g hg hpc
    simp only [incStart, List.getElem?_map] at hg
    cases hc : calls[j]? with
    | none => rw [hc] at hg; cases hg
    | some n => rw [hc] at hg; injection hg with hg; subst hg; cases hpc
  · refine ⟨0, ?_, rfl⟩
    simp only [incStart, List.map_map, Nat.zero_add]
    congr 1
    induction calls with
    | nil => rfl
    | cons a l ih => simp only [List.map, ih]; rfl

theorem getElem?_set_cases {α : Type} {l : List α} {i j : Nat} {a x : α}
    (h : (l.set i a)[j]? = some x) : (j = i ∧ x = a) ∨ (j ≠ i ∧ l[j]? = some x) := by
  rw [List.getElem?_set] at h
  split at h
  · rename_i hij
    split at h
    · injection h with h
      exact Or.inl ⟨hij.symm, h.symm⟩
    · cases h
  · rename_i hij
    exact Or.inr ⟨fun e => hij e.symm, h⟩

theorem incStep_inv {key : String} {total : Nat} {s s1 : CounterSystem} {i : Nat}
    (h : IncInv key total s) (hs : incStep key s i = some s1) :
    IncInv key total s1 ∧ incMeasure s1 < incMeasure s := by
  obtain ⟨hP, hR, hA, hE, hB, hL, d, hd, hv⟩ := h
  obtain ⟨t, ht⟩ := isNil_false_table hA
  unfold incStep at hs
  rw [hP] at hs
  simp only at hs
  cases hg : s.gs[i]? with
  | none => rw [hg] at hs; cases hs
  | some g =>
    rw [hg] at hs
    simp only at hs
    by_cases hc : g.calls = 0
    · rw [if_pos hc] at hs; cases hs
    · rw [if_neg hc] at hs
      have hsetE := sum_map_set inCritical s.gs i g
      have hsetP := sum_map_set incPending s.gs i g
      have hsetL := sum_map_set incLeft s.gs i g
      unfold incMeasure
      have hgE := le_sum_map inCritical s.gs i g hg
      cases hpc : g.pc with
      | atLock =>
        rw [hpc] at hs
        simp only at hs
        cases hlk : s.counter.mu.Lock with
        | none => rw [hlk] at hs; cases hs
        | some mu1 =>
          rw [hlk] at hs
          injection hs with hs
          subst hs
          simp only [RWMutex.Lock] at hlk
          split at hlk
          · rename_i hfree
            injection hlk with hlk
            subst hlk
            have e1 := hsetE { g with pc := IncPc.atLoad } hg
            have e2 := hsetP { g with pc := IncPc.atLoad } hg
            have a1 : inCritical g = 0 := by simp [inCritical, hpc]
            have a2 : inCritical { g with pc := IncPc.atLoad } = 1 := rfl
            have a3 : incPending g = g.calls := by simp [incPending, hpc]
            have a4 : incPending { g with pc := IncPc.atLoad } = g.calls := rfl
            rw [hfree.1] at hE
            simp only [Bool.false_eq_true, if_false] at hE
            have e3 := hsetL { g with pc := IncPc.atLoad } hg
            have a5 : incLeft g = 4 * g.calls := by simp [incLeft, hpc]
            have a6 : incLeft { g with pc := IncPc.atLoad } = 4 * g.calls - 1 := rfl
            refine ⟨⟨rfl, hR, hA, ?_, ?_, ?_, ⟨d, ?_, hv⟩⟩, by dsimp only; omega⟩
            · dsimp only
              rw [if_pos rfl]
              omega
            · intro j x hx hxpc
              dsimp only at hx
              rw [List.getElem?_set] at hx
              split at hx
              · split at hx
                · injection hx with hx; subst hx; exact hc
                · cases hx
              · exact hB j x hx hxpc
            · intro j x hx hxpc
              dsimp only at hx
              rw [List.getElem?_set] at hx
              split at hx
              · split at hx
                · injection hx with hx; subst hx; cases hxpc
                · cases hx
              · exact hL j x hx hxpc
            · dsimp only
              omega
          · cases hlk
      | atLoad =>
        rw [hpc] at hs
        simp only at hs
        injection hs with hs
        subst hs
        have e1 := hsetE { g with pc := IncPc.atStore, tmp := s.counter.count.index key } hg
        have e2 := hsetP { g with pc := IncPc.atStore, tmp := s.counter.count.index key } hg
        have a1 : inCritical g = 1 := by simp [inCritical, hpc]
        have a2 : inCritical { g with pc := IncPc.atStore, tmp := s.counter.count.index key } = 1 :=
          rfl
        have a3 : incPending g = g.calls := by simp [incPending, hpc]
        have a4 : incPending { g with pc := IncPc.atStore, tmp := s.counter.count.index key }
            = g.calls := rfl
        have e3 := hsetL { g with pc := IncPc.atStore, tmp := s.counter.count.index key } hg
        have a5 : incLeft g = 4 * g.calls - 1 := by simp [incLeft, hpc]
        have a6 : incLeft { g with pc := IncPc.atStore, tmp := s.counter.count.index key }
            = 4 * g.calls - 2 := rfl
        refine ⟨⟨rfl, hR, hA, ?_, ?_, ?_, ⟨d, ?_, hv⟩⟩, by dsimp only; omega⟩
        · dsimp only
          omega
        · intro j x hx hxpc
          rcases getElem?_set_cases hx with ⟨_, hx⟩ | ⟨_, hx⟩
          · subst hx; exact hc
          · exact hB j x hx hxpc
        · intro j x hx hxpc
          rcases getElem?_set_cases hx with ⟨_, hx⟩ | ⟨_, hx⟩
          · subst hx; rfl
          · exact hL j x hx hxpc
        · dsimp only
          omega
      | atStore =>
        rw [hpc] at hs
        simp only [ht, GoMap.assign] at hs
        injection hs with hs
        subst hs
        have e1 := hsetE { g with pc := IncPc.atUnlock } hg
        have e2 := hsetP { g with pc := IncPc.atUnlock } hg
        have a1 : inCritical g = 1 := by simp [inCritical, hpc]
        have a2 : inCritical { g with pc := IncPc.atUnlock } = 1 := rfl
        have a3 : incPending g = g.calls := by simp [incPending, hpc]
        have a4 : incPending { g with pc := IncPc.atUnlock } = g.calls - 1 := rfl
        have hE1 : (s.gs.map inCritical).sum ≤ 1 := by
          rw [hE]; split <;> omega
        have e3 := hsetL { g with pc := IncPc.atUnlock } hg
        have a6 : incLeft g = 4 * g.calls - 2 := by simp [incLeft, hpc]
        have a7 : incLeft { g with pc := IncPc.atUnlock } = 4 * g.calls - 3 := rfl
        refine ⟨⟨rfl, hR, rfl, ?_, ?_, ?_, ⟨d + 1, ?_, ?_⟩⟩, by dsimp only; omega⟩
        · dsimp only
          omega
        · intro j x hx hxpc
          rcases getElem?_set_cases hx with ⟨_, hx⟩ | ⟨_, hx⟩
          · subst hx; exact hc
          · exact hB j x hx hxpc
        · intro j x hx hxpc
          rcases getElem?_set_cases hx with ⟨_, hx⟩ | ⟨hji, hx⟩
          · subst hx; cases hxpc
          · exfalso
            have h2 := two_le_sum_map inCritical s.gs i j g x hg hx (fun e => hji e.symm)
            have a5 : inCritical x = 1 := by simp [inCritical, hxpc]
            omega
        · dsimp only
          omega
        · have hl := hL i g hg hpc
          show ((GoMap.table (fun k => if k = key then some g.tmp.inc else t k)).index key).val
            = wrapInt ((d + 1 : Nat) : Int)
          simp only [GoMap.index, GoMap.lookup, if_true]
          show wrapInt (g.tmp.val + 1) = wrapInt ((d + 1 : Nat) : Int)
          rw [hl, hv, wrapInt_succ]
          push_cast
          rfl
      | atUnlock =>
        rw [hpc] at hs
        have a1 : inCritical g = 1 := by simp [inCritical, hpc]
        have hw : s.counter.mu.writer = true := by
          by_contra hne
          rw [if_neg hne] at hE
          omega
        simp only [RWMutex.Unlock, hw, if_true] at hs
        injection hs with hs
        subst hs
        have e1 := hsetE { g with pc := IncPc.atLock, calls := g.calls - 1 } hg
        have e2 := hsetP { g with pc := IncPc.atLock, calls := g.calls - 1 } hg
        have a2 : inCritical { g with pc := IncPc.atLock, calls := g.calls - 1 } = 0 := rfl
        have a3 : incPending g = g.calls - 1 := by simp [incPending, hpc]
        have a4 : incPending { g with pc := IncPc.atLock, calls := g.calls - 1 }
            = g.calls - 1 := rfl
        rw [if_pos hw] at hE
        have e3 := hsetL { g with pc := IncPc.atLock, calls := g.calls - 1 } hg
        have a5 : incLeft g = 4 * g.calls - 3 := by simp [incLeft, hpc]
        have a6 : incLeft { g with pc := IncPc.atLock, calls := g.calls - 1 }
            = 4 * (g.calls - 1) := rfl
        refine ⟨⟨rfl, hR, hA, ?_, ?_, ?_, ⟨d, ?_, hv⟩⟩, by dsimp only; omega⟩
        · dsimp only
          rw [if_neg (by decide)]
          omega
        · intro j x hx hxpc
          rcases getElem?_set_cases hx with ⟨_, hx⟩ | ⟨_, hx⟩
          · subst hx; exact absurd rfl hxpc
          · exact hB j x hx hxpc
        · intro j x hx hxpc
          rcases getElem?_set_cases hx with ⟨_, hx⟩ | ⟨_, hx⟩
          · subst hx; cases hxpc
          · exact hL j x hx hxpc
        · dsimp only
          omega

theorem incExec_inv {key : String} {total : Nat} :
    ∀ (sched : List Nat) (s s1 : CounterSystem), IncInv key total s →
      incExec key s sched = some s1 → IncInv key total s1 := by
  intro sched
  induction sched with
  | nil =>
    intro s s1 h he
    simp only [incExec] at he
    injection he with he
    subst he
    exact h
  | cons i rest ih =>
    intro s s1 h he
    simp only [incExec] at he
    cases hs : incStep key s i with
    | none => rw [hs] at he; cases he
    | some s2 =>
      rw [hs] at he
      exact ih s2 s1 (incStep_inv h hs).1 he

theorem incStep_progress {key : String} {total : Nat} {s : CounterSystem}
    (h : IncInv key total s) (hd : incDone s = false) :
    ∃ i s1, incStep key s i = some s1 := by
  obtain ⟨hP, hR, hA, hE, hB, hL, d, hd', hv⟩ := h
  obtain ⟨t, ht⟩ := isNil_false_table hA
  have hsome : ∃ i, (incStep key s i).isSome = true := by
    cases hw : s.counter.mu.writer with
    | false =>
      rw [hw] at hE
      simp only [Bool.false_eq_true, if_false] at hE
      have hex : ∃ g ∈ s.gs, g.calls ≠ 0 := by
        by_contra hne
        have : incDone s = true := by
          simp only [incDone, List.all_eq_true, beq_iff_eq]
          intro g hg
          by_contra hc
          exact hne ⟨g, hg, hc⟩
        rw [this] at hd
        cases hd
      obtain ⟨g, hg, hc⟩ := hex
      obtain ⟨i, hi⟩ := List.mem_iff_getElem?.mp hg
      have hle := le_sum_map inCritical s.gs i g hi
      have hpc : g.pc = IncPc.atLock := by
        cases hp : g.pc with
        | atLock => rfl
        | atLoad => simp [inCritical, hp] at hle; omega
        | atStore => simp [inCritical, hp] at hle; omega
        | atUnlock => simp [inCritical, hp] at hle; omega
      exact ⟨i, by simp [incStep, hP, hi, hc, hpc, RWMutex.Lock, hw, hR]⟩
    | true =>
      rw [hw] at hE
      simp only [if_true] at hE
      obtain ⟨i, g, hi, hpos⟩ := exists_pos_of_sum_pos inCritical s.gs (by omega)
      have hpc : g.pc ≠ IncPc.atLock := by
        intro hp
        simp [inCritical, hp] at hpos
      have hc := hB i g hi hpc
      refine ⟨i, ?_⟩
      cases hp : g.pc with
      | atLock => exact absurd hp hpc
      | atLoad => simp [incStep, hP, hi, hc, hp]
      | atStore => simp [incStep, hP, hi, hc, hp, ht, GoMap.assign]
      | atUnlock => simp [incStep, hP, hi, hc, hp, RWMutex.Unlock, hw]
  obtain ⟨i, hi⟩ := hsome
  exact ⟨i, (incStep key s i).get hi, (Option.some_get hi).symm⟩

theorem incDone_value {key : String} {total : Nat} {s : CounterSystem}
    (h : IncInv key total s) (hd : incDone s = true) :
    s.counter.mu.writer = false ∧ (s.counter.count.index key).val = wrapInt total := by
  obtain ⟨hP, hR, hA, hE, hB, hL, d, hd', hv⟩ := h
  simp only [incDone, List.all_eq_true, beq_iff_eq] at hd
  have hall : ∀ (i : Nat) (g : Incrementer), s.gs[i]? = some g → g.calls = 0 :=
    fun i g hg => hd g (List.mem_iff_getElem?.mpr ⟨i, hg⟩)
  have hz1 : (s.gs.map inCritical).sum = 0 := by
    apply sum_map_zero
    intro i g hg
    have hc := hall i g hg
    cases hp : g.pc with
    | atLock => simp [inCritical, hp]
    | atLoad => exact absurd hc (hB i g hg (by rw [hp]; decide))
    | atStore => exact absurd hc (hB i g hg (by rw [hp]; decide))
    | atUnlock => exact absurd hc (hB i g hg (by rw [hp]; decide))
  have hz2 : (s.gs.map incPending).sum = 0 := by
    apply sum_map_zero
    intro i g hg
    have hc := hall i g hg
    cases hp : g.pc <;> simp [incPending, hp, hc]
  constructor
  · cases hw : s.counter.mu.writer with
    | false => rfl
    | true => rw [hw] at hE; simp at hE; omega
  · rw [hv]
    have : d = total := by omega
    rw [this]

theorem wrapInt_add_succ (v : Int) (n : Nat) :
    wrapInt (wrapInt (v + 1) + (n : Int)) = wrapInt (v + ((n + 1 : Nat) : Int)) := by
  unfold wrapInt
  push_cast
  omega

theorem incrementN_value (key : String) :
    ∀ (n : Nat) (c : SafeCounter), c.mu = RWMutex.zero → c.count.isNil = false →
      ∃ c1, incrementN c key n = Outcome.ok c1 ∧ c1.mu = RWMutex.zero ∧
        c1.count.isNil = false ∧
        (c1.count.index key).val = wrapInt ((c.count.index key).val + (n : Int)) := by
  intro n
  induction n with
  | zero =>
    intro c hmu hc
    refine ⟨c, rfl, hmu, hc, ?_⟩
    have h1 := (c.count.index key).lo
    have h2 := (c.count.index key).hi
    simp only [Nat.cast_zero, add_zero]
    exact (wrapInt_of_range h1 h2).symm
  | succ n ih =>
    intro c hmu hc
    obtain ⟨t, ht⟩ := isNil_false_table hc
    have hinc := Increment_table c key t hmu ht
    obtain ⟨c1, h1, hmu1, hc1, hv1⟩ := ih _ (rfl :
      ({ mu := RWMutex.zero, count := GoMap.table (fun k => if k = key then
          some (c.count.index key).inc else t k) } : SafeCounter).mu = RWMutex.zero) rfl
    refine ⟨c1, ?_, hmu1, hc1, ?_⟩
    · simp only [incrementN, List.replicate, runCalls, runCall, hinc]
      exact h1
    · rw [hv1]
      simp only [GoMap.index, GoMap.lookup, if_true]
      show wrapInt (wrapInt ((c.count.lookup key).1.val + 1) + (n : Int)) = _
      exact wrapInt_add_succ _ n

/-- A goroutine running alone: its four steps make up one call of `Increment`. -/
theorem incExec_one_call (c : SafeCounter) (key : String) (t : String → Option GoInt)
    (tmp : GoInt) (hmu : c.mu = RWMutex.zero) (hc : c.count = GoMap.table t) :
    ∃ c1 tmp1, Increment c key = Outcome.ok c1 ∧
      incExec key { counter := c, gs := [{ pc := IncPc.atLock, tmp := tmp, calls := 1 }],
                    panicked := none } [0, 0, 0, 0]
        = some { counter := c1, gs := [{ pc := IncPc.atLock, tmp := tmp1, calls := 0 }],
                 panicked := none } := by
  refine ⟨_, c.count.index key, Increment_table c key t hmu hc, ?_⟩
  cases c with
  | mk mu count =>
    simp only at hmu hc
    subst hmu
    subst hc
    simp [incExec, incStep, RWMutex.Lock, RWMutex.Unlock, RWMutex.zero, GoMap.assign]

/-- C1 (counterexample). The count does not follow `n` for every natural number `n`:
after `2^63` calls of `Increment("x")` on a fresh counter, `Get("x")` returns `-2^63`. -/
theorem SafeCounter_wraps_at_two_pow_63 :
    ∃ c, incrementN NewSafeCounter "x" 9223372036854775808 = Outcome.ok c ∧
      returned (Get c "x") = some (-9223372036854775808) := by
  obtain ⟨c, h1, hmu, _, hv⟩ := incrementN_value "x" 9223372036854775808 NewSafeCounter rfl rfl
  refine ⟨c, h1, ?_⟩
  have hw : c.mu.writer = false := by rw [hmu]; rfl
  rw [Get_unlocked c "x" hw]
  have h0 : (NewSafeCounter.count.index "x").val = 0 := rfl
  simp only [returned, hv, h0]
  norm_num [wrapInt]

theorem incExec_final {key : String} {calls : List Nat} {sched : List Nat} {s : CounterSystem}
    (hrun : incExec key (incStart calls) sched = some s) (hdone : incDone s = true) :
    returned (Get s.counter key) = some (wrapInt calls.sum) := by
  have hinv := incExec_inv sched _ s (incStart_inv key calls) hrun
  obtain ⟨hw, hv⟩ := incDone_value hinv hdone
  rw [Get_unlocked s.counter key hw]
  simp only [returned, hv]

/-- C1 (amended). On a counter obtained from `NewSafeCounter`, with no other writes:
(1) for every `n ≤ 2^63 - 1` and key `k`, after `n` successive calls `Increment(k)`,
`Get(k)` returns `n`;
(2) for goroutines that make the calls concurrently (`calls` lists how many each one
makes), under every schedule: no panic escapes; at most one goroutine at a time is
between `Lock` and `Unlock`; when all have finished, `Get(k)`
returns the total number of calls wrapped to 64 bits, which is the total itself when
it is at most `2^63 - 1`; while some goroutine has not finished, some goroutine can
move; and every step brings the system closer to the end;
(3) so 10 goroutines incrementing `"test"` once give 10, and two goroutines
incrementing `"x"` 1000 times each give 2000. -/
theorem SafeCounter_counts_increments :
    (∀ (n : Nat) (key : String), (n : Int) ≤ maxInt →
      ∃ c, incrementN NewSafeCounter key n = Outcome.ok c ∧
        returned (Get c key) = some (n : Int)) ∧
    (∀ (calls : List Nat) (key : String) (sched : List Nat) (s : CounterSystem),
      incExec key (incStart calls) sched = some s →
        s.panicked = none ∧
        (s.gs.map inCritical).sum ≤ 1 ∧
        (incDone s = true →
          returned (Get s.counter key) = some (wrapInt calls.sum) ∧
          ((calls.sum : Int) ≤ maxInt →
            returned (Get s.counter key) = some (calls.sum : Int))) ∧
        (incDone s = false → ∃ i s1, incStep key s i = some s1) ∧
        (∀ i s1, incStep key s i = some s1 → incMeasure s1 < incMeasure s)) ∧
    (∀ (sched : List Nat) (s : CounterSystem),
      incExec "test" demonstrateCounter sched = some s →
        incDone s = true → returned (Get s.counter "test") = some 10) ∧
    (∀ (sched : List Nat) (s : CounterSystem),
      incExec "x" (incStart [1000, 1000]) sched = some s →
        incDone s = true → returned (Get s.counter "x") = some 2000) := by
  refine ⟨?_, ?_, ?_, ?_⟩
  · intro n key hn
    obtain ⟨c, h1, hmu, _, hv⟩ := incrementN_value key n NewSafeCounter rfl rfl
    refine ⟨c, h1, ?_⟩
    have hw : c.mu.writer = false := by rw [hmu]; rfl
    rw [Get_unlocked c key hw]
    simp only [returned, hv]
    refine congrArg some ?_
    have h0 : (NewSafeCounter.count.index key).val = 0 := rfl
    rw [h0, zero_add]
    apply wrapInt_of_range _ hn
    unfold minInt
    omega
  · intro calls key sched s hrun
    have hinv := incExec_inv sched _ s (incStart_inv key calls) hrun
    have hexcl : (s.gs.map inCritical).sum ≤ 1 := by
      rw [hinv.excl]
      split <;> omega
    refine ⟨hinv.noPanic, hexcl, ?_, fun hd => incStep_progress hinv hd,
      fun i s1 hs => (incStep_inv hinv hs).2⟩
    intro hdone
    have hfin := incExec_final hrun hdone
    refine ⟨hfin, fun hmax => ?_⟩
    rw [hfin]
    refine congrArg some ?_
    apply wrapInt_of_range _ hmax
    unfold minInt
    omega
  · intro sched s hrun hdone
    rw [incExec_final hrun hdone]
    norm_num [wrapInt]
  · intro sched s hrun hdone
    rw [incExec_final hrun hdone]
    norm_num [wrapInt]

/-- C1 (witness): goroutine 0 calls `Increment("x")` twice and goroutine 1 once, the
call of goroutine 1 falling between the two of goroutine 0; `Get("x")` returns 3. -/
theorem SafeCounter_counts_increments_witness :
    incExec "x" (incStart [2, 1]) schedThreeCalls = some finalThreeCalls ∧
    incDone finalThreeCalls = true ∧
    returned (Get finalThreeCalls.counter "x") = some 3 :=
  have hsome : (incExec "x" (incStart [2, 1]) schedThreeCalls).isSome = true := by decide
  have hrun : incExec "x" (incStart [2, 1]) schedThreeCalls = some finalThreeCalls := by
    obtain ⟨x, hx⟩ := Option.isSome_iff_exists.mp hsome
    unfold finalThreeCalls
    rw [hx]
    rfl
  have hd : incDone finalThreeCalls = true := by decide
  ⟨hrun, hd, ((SafeCounter_counts_increments.2.1 [2, 1] "x" schedThreeCalls _ hrun).2.2.1 hd).2
    (by decide)⟩

/-! ## `safeSend` (C10) -/

/-- C10. For every value `val`: on a closed channel `safeSend(ch, val)` returns `false`
to its caller (the send panics with "send on closed channel", as the bare send of
`wrongWay` shows, and the deferred `recover` stops the panic); whenever the send on an
open channel completes, `safeSend` returns `true`; a send on an open channel completes
as soon as a receiver waits or the buffer has room; and no panic ever leaves
`safeSend`. -/
theorem safeSend_false_on_closed_true_on_sent (val : GoInt) :
    (∀ ch : Chan, ch.closed = true →
      bareSend (some ch) val = Outcome.panic "send on closed channel" ∧
      safeSend (some ch) val
        = Outcome.ok (false, some ch, ["捕获到 panic: send on closed channel\n"])) ∧
    (∀ (ch : Option Chan) (ch1 : Chan), chanSend ch val = SendResult.done ch1 →
      (∃ c, ch = some c ∧ c.closed = false) ∧
      safeSend ch val = Outcome.ok (true, some ch1, [])) ∧
    (∀ ch : Chan, ch.closed = false → (0 < ch.receivers ∨ ch.buf.length < ch.cap) →
      ∃ ch1, chanSend (some ch) val = SendResult.done ch1) ∧
    (∀ (ch : Option Chan) (msg : String), safeSend ch val ≠ Outcome.panic msg) := by
  refine ⟨?_, ?_, ?_, ?_⟩
  · intro ch hc
    have h : chanSend (some ch) val = SendResult.panics "send on closed channel" := by
      simp [chanSend, hc]
    exact ⟨by simp [bareSend, h], by simp only [safeSend, h]; rfl⟩
  · intro ch ch1 h
    constructor
    · cases ch with
      | none => simp [chanSend] at h
      | some c =>
        refine ⟨c, rfl, ?_⟩
        cases hc : c.closed with
        | false => rfl
        | true => simp [chanSend, hc] at h
    · simp only [safeSend, h, safeSendDeferred]
  · intro ch hc hready
    simp only [chanSend, hc]
    rw [if_neg (by decide)]
    by_cases hr : 0 < ch.receivers
    · rw [if_pos hr]
      exact ⟨_, rfl⟩
    · rw [if_neg hr]
      rcases hready with h | h
      · exact absurd h hr
      · rw [if_pos h]
        exact ⟨_, rfl⟩
  · intro ch msg h
    simp only [safeSend] at h
    split at h <;> cases h

/-- C10 (witness): `safeSend` on the closed channel of `wrongWay`, and on an open
channel with a waiting receiver. -/
theorem safeSend_false_on_closed_true_on_sent_witness :
    (bareSend (some closedChan) (GoInt.ofInt 42) = Outcome.panic "send on closed channel" ∧
      safeSend (some closedChan) (GoInt.ofInt 42)
        = Outcome.ok (false, some closedChan, ["捕获到 panic: send on closed channel\n"])) ∧
    (∃ ch1, chanSend (some openChanWithReceiver) (GoInt.ofInt 42) = SendResult.done ch1) :=
  ⟨(safeSend_false_on_closed_true_on_sent (GoInt.ofInt 42)).1 closedChan rfl,
   (safeSend_false_on_closed_true_on_sent (GoInt.ofInt 42)).2.2.1 openChanWithReceiver rfl
     (Or.inl (by decide))⟩

/-! ## `bestPractice` (C9) -/

theorem range_succ_map_ofNat (i : Nat) :
    (List.range (i + 1)).map Int.ofNat = (List.range i).map Int.ofNat ++ [Int.ofNat i] := by
  rw [List.range_succ, List.map_append]
  rfl

theorem bpStart_inv : BpInv bestPractice := by
  refine ⟨rfl, rfl, Nat.zero_le 5, ?_, ?_, rfl, ?_, ?_⟩
  · intro i h; cases h
  · constructor <;> intro h <;> cases h
  · constructor <;> intro _ <;> rfl
  · intro h; cases h

theorem bpStep_inv {s s1 : BpState} {a : BpActor}
    (h : BpInv s) (hs : bpStep s a = some s1) :
    BpInv s1 ∧ bpMeasure s1 < bpMeasure s := by
  obtain ⟨hP, hR, hB, hSB, hC, hCl, hSt, hRet⟩ := h
  cases s with
  | mk made closed closers prod cons consumed panicked =>
    simp only at hP hR hB hSB hC hCl hSt hRet
    subst hP
    cases a with
    | consumer =>
      simp only [bpStep, consumerStep] at hs
      cases cons with
      | atProducer =>
        simp only at hs
        injection hs with hs
        subst hs
        have hp : prod = ProdPc.notStarted := hSt.mp rfl
        subst hp
        refine ⟨⟨rfl, hR, Nat.zero_le 5, ?_, ?_, hCl, ?_, ?_⟩,
          by simp [bpMeasure, prodLeft, consLeft]⟩
        · intro i h; cases h
        · simp only at hC ⊢
          constructor
          · intro h; exact absurd (hC.mp h) (by decide)
          · intro h; cases h
        · constructor <;> intro h <;> cases h
        · intro h; cases h
      | atRecv =>
        have hns : prod ≠ ProdPc.notStarted := fun e => by
          have := hSt.mpr e
          cases this
        cases prod with
        | notStarted => exact absurd rfl hns
        | atSend i =>
          simp only at hs
          injection hs with hs
          subst hs
          have hi := hSB i rfl
          refine ⟨⟨rfl, ?_, hi, ?_, ?_, hCl, ?_, ?_⟩, ?_⟩
          · simp only [bpReceived, prodCount] at hR ⊢
            rw [range_succ_map_ofNat, hR]
          · intro j h; cases h
          · simp only at hC ⊢
            constructor
            · intro h; exact absurd (hC.mp h) (by simp)
            · intro h; cases h
          · constructor <;> intro h <;> cases h
          · intro h; cases h
          · simp only [bpMeasure, prodLeft, consLeft]
            omega
        | atTest i =>
          simp only at hs
          split at hs
          · rename_i hcl
            exact absurd (hC.mp hcl) (by simp)
          · cases hs
        | atClose =>
          simp only at hs
          split at hs
          · rename_i hcl
            exact absurd (hC.mp hcl) (by simp)
          · cases hs
        | exited =>
          simp only at hs
          split at hs
          · rename_i hcl
            injection hs with hs
            subst hs
            refine ⟨⟨rfl, hR, hB, hSB, hC, hCl, ?_, fun _ => hcl⟩, ?_⟩
            · constructor <;> intro h <;> cases h
            · simp [bpMeasure, consLeft]
          · cases hs
      | atPrint v =>
        simp only at hs
        injection hs with hs
        subst hs
        refine ⟨⟨rfl, hR, hB, hSB, hC, hCl, ?_, ?_⟩, ?_⟩
        · constructor
          · intro h; cases h
          · intro h
            have := hSt.mpr h
            cases this
        · intro h; cases h
        · simp [bpMeasure, consLeft]
      | returned => simp only at hs; cases hs
    | producer =>
      simp only [bpStep, producerStep] at hs
      cases prod with
      | notStarted => simp only at hs; cases hs
      | atTest i =>
        have hnc : closed ≠ true := fun e => absurd (hC.mp e) (by simp)
        have hcons : cons ≠ ConsPc.atProducer := fun e => absurd (hSt.mp e) (by simp)
        simp only at hs
        split at hs
        · rename_i hi
          injection hs with hs
          subst hs
          refine ⟨⟨rfl, ?_, hB, ?_, ?_, hCl, ?_, hRet⟩, ?_⟩
          · cases cons <;> exact hR
          · intro j h
            injection h with h
            omega
          · constructor
            · intro h; exact absurd h hnc
            · intro h; cases h
          · constructor
            · intro h; exact absurd h hcons
            · intro h; cases h
          · simp only [bpMeasure, prodLeft]
            omega
        · rename_i hi
          injection hs with hs
          subst hs
          have h5 : i = 5 := by
            simp only [prodCount] at hB
            omega
          subst h5
          refine ⟨⟨rfl, ?_, Nat.le_refl 5, ?_, ?_, hCl, ?_, hRet⟩, ?_⟩
          · cases cons <;> exact hR
          · intro j h; cases h
          · constructor
            · intro h; exact absurd h hnc
            · intro h; cases h
          · constructor
            · intro h; exact absurd h hcons
            · intro h; cases h
          · simp [bpMeasure, prodLeft]
      | atSend i =>
        have hnc : closed ≠ true := fun e => absurd (hC.mp e) (by simp)
        simp only at hs
        rw [if_neg hnc] at hs
        cases cons with
        | atRecv =>
          simp only at hs
          injection hs with hs
          subst hs
          have hi := hSB i rfl
          refine ⟨⟨rfl, ?_, hi, ?_, ?_, hCl, ?_, ?_⟩, ?_⟩
          · simp only [bpReceived, prodCount] at hR ⊢
            rw [range_succ_map_ofNat, hR]
          · intro j h; cases h
          · constructor
            · intro h; exact absurd h hnc
            · intro h; cases h
          · constructor <;> intro h <;> cases h
          · intro h; cases h
          · simp only [bpMeasure, prodLeft, consLeft]
            omega
        | atProducer => simp only at hs; cases hs
        | atPrint v => simp only at hs; cases hs
        | returned => simp only at hs; cases hs
      | atClose =>
        have hnc : closed ≠ true := fun e => absurd (hC.mp e) (by simp)
        have hcons : cons ≠ ConsPc.atProducer := fun e => absurd (hSt.mp e) (by simp)
        simp only at hs
        rw [if_neg hnc] at hs
        injection hs with hs
        subst hs
        rw [if_neg hnc] at hCl
        subst hCl
        refine ⟨⟨rfl, ?_, Nat.le_refl 5, ?_, ?_, rfl, ?_, fun _ => rfl⟩, ?_⟩
        · cases cons <;> exact hR
        · intro j h; cases h
        · constructor <;> intro _ <;> rfl
        · constructor
          · intro h; exact absurd h hcons
          · intro h; cases h
        · simp [bpMeasure, prodLeft]
      | exited => simp only at hs; cases hs

theorem bpExec_inv :
    ∀ (sched : List BpActor) (s s1 : BpState), BpInv s → bpExec s sched = some s1 →
      BpInv s1 := by
  intro sched
  induction sched with
  | nil =>
    intro s s1 h he
    simp only [bpExec] at he
    injection he with he
    subst he
    exact h
  | cons a rest ih =>
    intro s s1 h he
    simp only [bpExec] at he
    cases hs : bpStep s a with
    | none => rw [hs] at he; cases he
    | some s2 =>
      rw [hs] at he
      exact ih s2 s1 (bpStep_inv h hs).1 he

theorem bpStep_progress {s : BpState} (h : BpInv s) (hn : s.cons ≠ ConsPc.returned) :
    ∃ a s1, bpStep s a = some s1 := by
  obtain ⟨hP, hR, hB, hSB, hC, hCl, hSt, hRet⟩ := h
  cases s with
  | mk made closed closers prod cons consumed panicked =>
    simp only at hP hR hB hSB hC hCl hSt hRet hn
    subst hP
    cases cons with
    | atProducer => exact ⟨BpActor.consumer, _, rfl⟩
    | atPrint v => exact ⟨BpActor.consumer, _, rfl⟩
    | returned => exact absurd rfl hn
    | atRecv =>
      cases prod with
      | notStarted =>
        have := hSt.mpr rfl
        cases this
      | atTest i =>
        by_cases hi : i < 5
        · exact ⟨BpActor.producer, _, by simp only [bpStep, producerStep, if_pos hi]; rfl⟩
        · exact ⟨BpActor.producer, _, by simp only [bpStep, producerStep, if_neg hi]; rfl⟩
      | atSend i => exact ⟨BpActor.consumer, _, rfl⟩
      | atClose =>
        have hnc : closed ≠ true := fun e => absurd (hC.mp e) (by simp)
        exact ⟨BpActor.producer, _, by simp only [bpStep, producerStep, if_neg hnc]; rfl⟩
      | exited =>
        have hcl : closed = true := hC.mpr rfl
        exact ⟨BpActor.consumer, _, by simp only [bpStep, consumerStep, if_pos hcl]; rfl⟩

theorem bpInv_returned {s : BpState} (h : BpInv s) (hr : s.cons = ConsPc.returned) :
    s.consumed = [0, 1, 2, 3, 4] ∧ s.closed = true ∧ s.closers = [BpActor.producer] ∧
      s.prod = ProdPc.exited := by
  have hcl := h.returnedClosed hr
  have hp := h.closedIff.mp hcl
  have hR := h.received
  have hC := h.closersEq
  rw [if_pos hcl] at hC
  simp only [bpReceived, hr, hp, prodCount] at hR
  exact ⟨hR, hcl, hC, hp⟩

theorem bpInv_prefix {s : BpState} (h : BpInv s) : s.consumed <+: [0, 1, 2, 3, 4] := by
  have hR := h.received
  have hB := h.bound
  have hpre : bpReceived s <+: [0, 1, 2, 3, 4] := by
    rw [hR]
    generalize prodCount s.prod = n at hB
    interval_cases n <;> decide
  have hc : s.consumed <+: bpReceived s := by
    simp only [bpReceived]
    split
    · exact List.prefix_append _ _
    · exact List.prefix_refl _
  exact hc.trans hpre

/-- C9. In `bestPractice`, under every schedule of the two goroutines: no panic
escapes; `close(ch)` is executed only by the goroutine that `producer` started (at
most once) and never by the consumer; what the consumer has consumed is always an
initial part of 0,1,2,3,4; when `consumer` has returned it has consumed exactly
0,1,2,3,4 in that order, and it returned because the channel was closed, the producer
having exited after its fifth send; as long as `consumer` has not returned some
goroutine can move, and every step brings the program closer to its end. -/
theorem bestPractice_producer_closes_consumer_gets_all
    (sched : List BpActor) (s : BpState) (hrun : bpExec bestPractice sched = some s) :
    s.panicked = none ∧
    (s.closers = [] ∨ s.closers = [BpActor.producer]) ∧
    BpActor.consumer ∉ s.closers ∧
    s.consumed <+: [0, 1, 2, 3, 4] ∧
    (s.cons = ConsPc.returned →
      s.consumed = [0, 1, 2, 3, 4] ∧ s.closed = true ∧
      s.closers = [BpActor.producer] ∧ s.prod = ProdPc.exited) ∧
    (s.cons ≠ ConsPc.returned → ∃ a s1, bpStep s a = some s1) ∧
    (∀ a s1, bpStep s a = some s1 → bpMeasure s1 < bpMeasure s) := by
  have hinv := bpExec_inv sched bestPractice s bpStart_inv hrun
  have hcl := hinv.closersEq
  refine ⟨hinv.noPanic, ?_, ?_, bpInv_prefix hinv, bpInv_returned hinv,
    bpStep_progress hinv, fun a s1 hs => (bpStep_inv hinv hs).2⟩
  · rw [hcl]
    split
    · exact Or.inr rfl
    · exact Or.inl rfl
  · rw [hcl]
    split <;> decide

/-- C9 (witness): one complete run of `bestPractice`. -/
theorem bestPractice_producer_closes_consumer_gets_all_witness :
    bpExec bestPractice bpSchedule = some bpFinal ∧
    bpFinal.cons = ConsPc.returned ∧
    bpFinal.consumed = [0, 1, 2, 3, 4] ∧ bpFinal.closed = true ∧
      bpFinal.closers = [BpActor.producer] ∧ bpFinal.prod = ProdPc.exited :=
  ⟨by decide, rfl,
    (bestPractice_producer_closes_consumer_gets_all bpSchedule bpFinal (by decide)).2.2.2.2.1
      rfl⟩

/-! ## `sync.WaitGroup` examples (C8) -/

theorem quiet_bal : ∀ (l : List WgInstr), quiet l = true → bal l = 0 := by
  intro l
  induction l with
  | nil => intro _; rfl
  | cons instr rest ih =>
    intro h
    cases instr <;> simp only [quiet] at h <;> first | cases h | exact ih h

theorem quiet_quietAfterWait : ∀ (l : List WgInstr), quiet l = true → quietAfterWait l = true := by
  intro l
  induction l with
  | nil => intro _; rfl
  | cons instr rest ih =>
    intro h
    cases instr <;> simp only [quiet] at h <;> first | cases h | exact ih h

theorem nonNeg_bal : ∀ (l : List WgInstr), nonNeg l = true → 0 ≤ bal l := by
  intro l h
  cases l with
  | nil => exact le_refl 0
  | cons instr rest =>
    simp only [nonNeg, Bool.and_eq_true, decide_eq_true_eq] at h
    exact h.1

theorem nonNeg_tail {instr : WgInstr} {rest : List WgInstr}
    (h : nonNeg (instr :: rest) = true) : nonNeg rest = true := by
  simp only [nonNeg, Bool.and_eq_true] at h
  exact h.2

theorem sum_map_append_one {α : Type} (f : α → Nat) (l : List α) (a : α) :
    ((l ++ [a]).map f).sum = (l.map f).sum + f a := by
  simp

theorem getElem?_append_one {α : Type} {l : List α} {a x : α} {i : Nat}
    (h : (l ++ [a])[i]? = some x) : l[i]? = some x ∨ x = a := by
  by_cases hi : i < l.length
  · rw [List.getElem?_append_left hi] at h
    exact Or.inl h
  · rw [List.getElem?_append_right (by omega)] at h
    right
    cases hk : i - l.length with
    | zero => rw [hk] at h; simp at h; exact h.symm
    | succ n => rw [hk] at h; simp at h

theorem wgStart_inv (prog : List WgInstr) (h : wgBalanced prog = true) :
    WgInv (wgStart prog) := by
  simp only [wgBalanced, Bool.and_eq_true, decide_eq_true_eq] at h
  obtain ⟨⟨⟨h1, h2⟩, h3⟩, h4⟩ := h
  refine ⟨rfl, ?_, h2, h3, ?_, rfl, ?_, Or.inr h4⟩
  · show (0 : Int) = bal prog + ((0 : Nat) : Int)
    rw [h1]
    rfl
  · intro i g hg
    simp [wgStart] at hg
  · intro hw
    cases hw

theorem wgStep_inv {s s1 : WgState} {a : WgActor}
    (h : WgInv s) (hs : wgStep s a = some s1) :
    WgInv s1 ∧ wgMeasure s1 < wgMeasure s := by
  obtain ⟨hP, hBal, hM, hW, hBo, hG, hA, hD⟩ := h
  have hD1 : ∀ (instr : WgInstr) (rest : List WgInstr), s.main = instr :: rest →
      instr ≠ WgInstr.wait → s.waited = true ∨ WgInstr.wait ∈ rest := by
    intro instr rest hm hne
    rcases hD with hD | hD
    · exact Or.inl hD
    · rw [hm] at hD
      rcases List.mem_cons.mp hD with e | e
      · exact absurd e.symm hne
      · exact Or.inr e
  cases s with
  | mk wg main gs adds dones waited out panicked =>
    simp only at hP hBal hM hW hBo hG hA hD hD1
    subst hP
    have hSum : (0 : Int) ≤ (((gs.map owed).sum : Nat) : Int) := Int.ofNat_nonneg _
    cases a with
    | main =>
      simp only [wgStep] at hs
      cases main with
      | nil => cases hs
      | cons instr rest =>
        simp only at hs
        have hMr := nonNeg_tail hM
        have hbr := nonNeg_bal rest hMr
        cases instr with
        | add delta =>
          simp only [bal] at hBal
          have hnn : ¬ (wg.counter + delta < 0) := by omega
          simp only [wgInstr, WaitGroup.Add, if_neg hnn] at hs
          injection hs with hs
          subst hs
          refine ⟨⟨rfl, ?_, hMr, ?_, hBo, ?_, ?_, hD1 _ _ rfl (by simp)⟩, ?_⟩
          · show wg.counter + delta = bal rest + (((gs.map owed).sum : Nat) : Int)
            omega
          · simpa [quietAfterWait] using hW
          · show wg.counter + delta = adds + delta - dones
            omega
          · intro hw
            have := (hA hw).1
            simp [quiet] at this
          · simp [wgMeasure, wgWeight]
        | go id =>
          simp only [bal] at hBal
          simp only [wgInstr] at hs
          injection hs with hs
          subst hs
          refine ⟨⟨rfl, ?_, hMr, ?_, ?_, hG, ?_, hD1 _ _ rfl (by simp)⟩, ?_⟩
          · show wg.counter = bal rest + (((gs ++ [goBody id]).map owed).sum : Nat)
            rw [sum_map_append_one]
            have : owed (goBody id) = 1 := rfl
            rw [this]
            omega
          · simpa [quietAfterWait] using hW
          · intro i g hg
            rcases getElem?_append_one hg with hg | hg
            · exact hBo i g hg
            · subst hg; rfl
          · intro hw
            have := (hA hw).1
            simp [quiet] at this
          · show (rest.map wgWeight).sum + ((gs ++ [goBody id]).map List.length).sum
              < ((WgInstr.go id :: rest).map wgWeight).sum + (gs.map List.length).sum
            rw [sum_map_append_one]
            have : (goBody id).length = 2 := rfl
            simp only [List.map, List.sum_cons, wgWeight, this]
            omega
        | wait =>
          simp only [bal] at hBal
          simp only [wgInstr, WaitGroup.Wait] at hs
          split at hs
          · cases hs
          · rename_i w hw0
            split at hw0
            · rename_i hz
              injection hs with hs
              subst hs
              have hq : quiet rest = true := by simpa [quietAfterWait] using hW
              refine ⟨⟨rfl, hBal, hMr, quiet_quietAfterWait rest hq, hBo, hG,
                fun _ => ⟨hq, hz⟩, Or.inl rfl⟩, ?_⟩
              simp [wgMeasure, wgWeight]
            · cases hw0
        | print line =>
          simp only [bal] at hBal
          simp only [wgInstr] at hs
          injection hs with hs
          subst hs
          refine ⟨⟨rfl, hBal, hMr, ?_, hBo, hG, ?_, hD1 _ _ rfl (by simp)⟩, ?_⟩
          · simpa [quietAfterWait] using hW
          · intro hw
            have := hA hw
            exact ⟨by simpa [quiet] using this.1, this.2⟩
          · simp [wgMeasure, wgWeight]
        | done =>
          simp only [bal] at hBal
          have hnn : ¬ (wg.counter + -1 < 0) := by omega
          simp only [wgInstr, WaitGroup.Done, WaitGroup.Add, if_neg hnn] at hs
          injection hs with hs
          subst hs
          refine ⟨⟨rfl, ?_, hMr, ?_, hBo, ?_, ?_, hD1 _ _ rfl (by simp)⟩, ?_⟩
          · show wg.counter + -1 = bal rest + (((gs.map owed).sum : Nat) : Int)
            omega
          · simpa [quietAfterWait] using hW
          · show wg.counter + -1 = adds - (dones + 1)
            omega
          · intro hw
            have := (hA hw).1
            simp [quiet] at this
          · simp [wgMeasure, wgWeight]
    | goroutine i =>
      simp only [wgStep] at hs
      have hb := nonNeg_bal main hM
      cases hg : gs[i]? with
      | none => rw [hg] at hs; cases hs
      | some g =>
        rw [hg] at hs
        have hbody := hBo i g hg
        have hset := sum_map_set owed gs i g
        have hlen := sum_map_set List.length gs i g
        have hle := le_sum_map owed gs i g hg
        cases g with
        | nil => cases hs
        | cons instr rest =>
          simp only at hs
          have hl1 := hlen rest hg
          have hs1 := hset rest hg
          have hm : (rest.map wgWeight).sum = (rest.map wgWeight).sum := rfl
          cases instr with
          | add delta => simp [bodyOk] at hbody
          | go id => simp [bodyOk] at hbody
          | wait => simp [bodyOk] at hbody
          | print line =>
            simp only [wgInstr] at hs
            injection hs with hs
            subst hs
            have ho : owed (WgInstr.print line :: rest) = owed rest := rfl
            refine ⟨⟨rfl, ?_, hM, hW, ?_, hG, hA, hD⟩, ?_⟩
            · show wg.counter = bal main + ((((gs.set i rest).map owed).sum : Nat) : Int)
              omega
            · intro j x hx
              rcases getElem?_set_cases hx with ⟨_, hx⟩ | ⟨_, hx⟩
              · subst hx
                simpa [bodyOk] using hbody
              · exact hBo j x hx
            · show (main.map wgWeight).sum + ((gs.set i rest).map List.length).sum
                < (main.map wgWeight).sum + (gs.map List.length).sum
              simp only [List.length_cons] at hl1
              omega
          | done =>
            have ho : owed (WgInstr.done :: rest) = owed rest + 1 := rfl
            have hnn : ¬ (wg.counter + -1 < 0) := by omega
            simp only [wgInstr, WaitGroup.Done, WaitGroup.Add, if_neg hnn] at hs
            injection hs with hs
            subst hs
            refine ⟨⟨rfl, ?_, hM, hW, ?_, ?_, ?_, hD⟩, ?_⟩
            · show wg.counter + -1 = bal main + ((((gs.set i rest).map owed).sum : Nat) : Int)
              omega
            · intro j x hx
              rcases getElem?_set_cases hx with ⟨_, hx⟩ | ⟨_, hx⟩
              · subst hx
                simpa [bodyOk] using hbody
              · exact hBo j x hx
            · show wg.counter + -1 = adds - (dones + 1)
              omega
            · intro hw
              have h0 := hA hw
              have hq := quiet_bal main h0.1
              exfalso
              omega
            · show (main.map wgWeight).sum + ((gs.set i rest).map List.length).sum
                < (main.map wgWeight).sum + (gs.map List.length).sum
              simp only [List.length_cons] at hl1
              omega

theorem wgExec_inv :
    ∀ (sched : List WgActor) (s s1 : WgState), WgInv s → wgExec s sched = some s1 →
      WgInv s1 := by
  intro sched
  induction sched with
  | nil =>
    intro s s1 h he
    simp only [wgExec] at he
    injection he with he
    subst he
    exact h
  | cons a rest ih =>
    intro s s1 h he
    simp only [wgExec] at he
    cases hs : wgStep s a with
    | none => rw [hs] at he; cases he
    | some s2 =>
      rw [hs] at he
      exact ih s2 s1 (wgStep_inv h hs).1 he

theorem owed_pos_cons : ∀ (g : List WgInstr), 0 < owed g → ∃ instr rest, g = instr :: rest := by
  intro g h
  cases g with
  | nil => simp [owed] at h
  | cons instr rest => exact ⟨instr, rest, rfl⟩

theorem wgStep_progress {s : WgState} (h : WgInv s) (hn : s.main ≠ []) :
    ∃ a s1, wgStep s a = some s1 := by
  obtain ⟨hP, hBal, hM, hW, hBo, hG, hA, hD⟩ := h
  have hsome : ∃ a, (wgStep s a).isSome = true := by
    cases hm : s.main with
    | nil => exact absurd hm hn
    | cons instr rest =>
      rw [hm] at hBal hM hW
      have hbr := nonNeg_bal rest (nonNeg_tail hM)
      cases instr with
      | add delta =>
        refine ⟨WgActor.main, ?_⟩
        simp only [wgStep, hP, hm, wgInstr]
        split <;> rfl
      | go id => exact ⟨WgActor.main, by simp only [wgStep, hP, hm, wgInstr]; rfl⟩
      | print line => exact ⟨WgActor.main, by simp only [wgStep, hP, hm, wgInstr]; rfl⟩
      | done =>
        refine ⟨WgActor.main, ?_⟩
        simp only [wgStep, hP, hm, wgInstr]
        split <;> rfl
      | wait =>
        by_cases hz : s.wg.counter = 0
        · exact ⟨WgActor.main, by simp [wgStep, hP, hm, wgInstr, WaitGroup.Wait, hz]⟩
        · have hq : quiet rest = true := by simpa [quietAfterWait] using hW
          have hb0 := quiet_bal rest hq
          simp only [bal] at hBal
          obtain ⟨i, g, hg, hpos⟩ := exists_pos_of_sum_pos owed s.gs (by omega)
          obtain ⟨instr, r, hgr⟩ := owed_pos_cons g hpos
          subst hgr
          have hbody := hBo i _ hg
          refine ⟨WgActor.goroutine i, ?_⟩
          cases instr with
          | add delta => simp [bodyOk] at hbody
          | go id => simp [bodyOk] at hbody
          | wait => simp [bodyOk] at hbody
          | print line => simp only [wgStep, hP, hg, wgInstr]; rfl
          | done =>
            simp only [wgStep, hP, hg, wgInstr]
            split <;> rfl
  obtain ⟨a, ha⟩ := hsome
  exact ⟨a, (wgStep s a).get ha, (Option.some_get ha).symm⟩

theorem wgInv_returned {s : WgState} (h : WgInv s) (hm : s.main = []) :
    s.waited = true := by
  rcases h.waitDue with hw | hw
  · exact hw
  · rw [hm] at hw
    cases hw

theorem wgInv_all_done {s : WgState} (h : WgInv s) (hw : s.waited = true)
    (i : Nat) (g : List WgInstr) (hg : s.gs[i]? = some g) : owed g = 0 := by
  have h0 := h.afterWait hw
  have hb := quiet_bal s.main h0.1
  have hbal := h.balance
  have hle := le_sum_map owed s.gs i g hg
  omega

/-- C8. In `correctWay` (`Add(3)` before the three goroutines are started, each calling
`Done` once) and in `correctWay2` (`Add(1)` before each goroutine), under every
schedule: no panic escapes; the outstanding count, which is the sum of the `Add`s minus
the number of `Done`s, is never negative; once `Wait` has returned the count is exactly
0 and no goroutine has a `Done` left; the function cannot return without `Wait` having
returned; until it returns some goroutine can move, and every step brings the program
closer to its end. And a `Done` issued when the count is 0 is not ignored: it panics
with "sync: negative WaitGroup counter". -/
theorem WaitGroup_count_nonneg_and_zero_after_Wait
    (prog : List WgInstr) (hprog : prog = correctWay ∨ prog = correctWay2)
    (sched : List WgActor) (s : WgState) (hrun : wgExec (wgStart prog) sched = some s) :
    s.panicked = none ∧
    0 ≤ s.wg.counter ∧
    s.wg.counter = s.adds - s.dones ∧
    (s.waited = true → s.wg.counter = 0 ∧
      ∀ (i : Nat) (g : List WgInstr), s.gs[i]? = some g → owed g = 0) ∧
    (s.main = [] → s.waited = true) ∧
    (s.main ≠ [] → ∃ a s1, wgStep s a = some s1) ∧
    (∀ a s1, wgStep s a = some s1 → wgMeasure s1 < wgMeasure s) ∧
    (∀ wg : WaitGroup, wg.counter = 0 →
      wg.Done = Except.error "sync: negative WaitGroup counter") ∧
    (∀ t : WgState, t.wg.counter = 0 → wgInstr t WgInstr.done
      = some { t with panicked := some "sync: negative WaitGroup counter" }) := by
  have hbal : wgBalanced prog = true := by
    rcases hprog with e | e <;> subst e <;> decide
  have hinv := wgExec_inv sched _ s (wgStart_inv prog hbal) hrun
  have hb := nonNeg_bal s.main hinv.mainOk
  have hbalance := hinv.balance
  refine ⟨hinv.noPanic, by omega, hinv.ghost,
    fun hw => ⟨(hinv.afterWait hw).2, wgInv_all_done hinv hw⟩,
    wgInv_returned hinv, wgStep_progress hinv,
    fun a s1 hs => (wgStep_inv hinv hs).2, ?_, ?_⟩
  · intro wg h0
    simp [WaitGroup.Done, WaitGroup.Add, h0]
  · intro t h0
    simp [wgInstr, WaitGroup.Done, WaitGroup.Add, h0]

/-- C8 (witness): a complete run of `correctWay`. -/
theorem WaitGroup_count_nonneg_and_zero_after_Wait_witness :
    wgExec (wgStart correctWay) wgSchedule = some wgFinal ∧
    wgFinal.main = [] ∧ wgFinal.waited = true ∧ wgFinal.wg.counter = 0 ∧
    wgFinal.wg.counter = wgFinal.adds - wgFinal.dones :=
  have h := WaitGroup_count_nonneg_and_zero_after_Wait correctWay (Or.inl rfl) wgSchedule
    wgFinal (by decide)
  ⟨by decide, rfl, h.2.2.2.2.1 rfl, (h.2.2.2.1 rfl).1, h.2.2.1⟩

/-! ## `workerPool` (C7) -/

theorem count_cons_split (a : Int) (l : List Int) (v : Int) :
    (a :: l).count v = [a].count v + l.count v := by
  rw [show a :: l = [a] ++ l from rfl, List.count_append]

theorem count_snoc_split (a : Int) (l : List Int) (v : Int) :
    (l ++ [a]).count v = l.count v + [a].count v := List.count_append _ _ _

theorem poolStart_inv : PoolInv workerPool := by
  refine ⟨rfl, rfl, ?_, ?_, rfl, rfl, rfl, ?_⟩
  · intro v
    simp [workerPool, unsent]
  · intro v
    simp [workerPool, unsent]
  · intro h
    simp [workerPool] at h

theorem poolMainStep_inv {s s1 : PoolState}
    (h : PoolInv s) (hs : poolMainStep s = some s1) :
    PoolInv s1 ∧ poolMeasure s1 < poolMeasure s := by
  obtain ⟨hP, hSz, hV, hL, hSt, hC, hCo, hD⟩ := h
  cases s with
  | mk jobs jobsClosed results main workers log collected panicked =>
    simp only at hP hSz hV hL hSt hC hCo hD
    subst hP
    simp only [poolMainStep] at hs
    cases main with
    | spawning ids =>
      cases ids with
      | cons id ids =>
        simp only at hs
        injection hs with hs
        subst hs
        have n1 := sum_map_append_one heldLen workers { id := id, pc := WorkerPc.atRange }
        have n2 := fun v => sum_map_append_one (heldCount v) workers
          { id := id, pc := WorkerPc.atRange }
        have n3 := fun v => sum_map_append_one (unloggedCount v) workers
          { id := id, pc := WorkerPc.atRange }
        have n4 := sum_map_append_one leftLoop workers { id := id, pc := WorkerPc.atRange }
        have n5 := sum_map_append_one workerLeft workers { id := id, pc := WorkerPc.atRange }
        have z1 : heldLen { id := id, pc := WorkerPc.atRange } = 0 := rfl
        have z2 : ∀ v, heldCount v { id := id, pc := WorkerPc.atRange } = 0 := fun _ => rfl
        have z3 : ∀ v, unloggedCount v { id := id, pc := WorkerPc.atRange } = 0 := fun _ => rfl
        have z4 : leftLoop { id := id, pc := WorkerPc.atRange } = 0 := rfl
        have z5 : workerLeft { id := id, pc := WorkerPc.atRange } = 2 := rfl
        simp only [unsent, unstarted, pastClose, toCollect, List.length_cons] at hSz hV hL hSt hC hCo
        refine ⟨⟨rfl, ?_, ?_, ?_, ?_, hC, hCo, ?_⟩, ?_⟩
        · simp only [unsent]
          omega
        · intro v
          have := hV v
          have := n2 v
          have := z2 v
          simp only [unsent]
          omega
        · intro v
          have := hL v
          have := n3 v
          have := z3 v
          simp only [unsent]
          omega
        · simp only [unstarted, List.length_append, List.length_singleton, List.length_nil]
          omega
        · intro hpos
          dsimp only at hpos
          exact hD (by omega)
        · simp only [poolMeasure, mainLeft, List.length_cons]
          omega
      | nil =>
        simp only at hs
        injection hs with hs
        subst hs
        simp only [unsent, unstarted, pastClose, toCollect, List.length_nil] at hSz hV hL hSt hC hCo
        refine ⟨⟨rfl, hSz, hV, hL, hSt, hC, hCo, hD⟩, ?_⟩
        simp [poolMeasure, mainLeft, poolJobs]
    | sending todo =>
      have hnc : jobsClosed ≠ true := by rw [hC]; simp [pastClose]
      have hD0 : (workers.map leftLoop).sum = 0 := by
        by_contra hne
        exact hnc (hD (by omega)).1
      cases todo with
      | cons j todo =>
        simp only at hs
        rw [if_neg hnc] at hs
        split at hs
        · injection hs with hs
          subst hs
          simp only [unsent, unstarted, pastClose, toCollect, List.length_cons, List.map_cons]
            at hSz hV hL hSt hC hCo
          refine ⟨⟨rfl, ?_, ?_, ?_, hSt, hC, hCo, ?_⟩, ?_⟩
          · simp only [unsent, List.length_append, List.length_singleton, List.length_nil]
            omega
          · intro v
            have := hV v
            have := count_cons_split (double j) (todo.map double) v
            have := count_snoc_split (double j) (jobs.map double) v
            simp only [unsent, List.map_append, List.map_cons, List.map_nil]
            omega
          · intro v
            have := hL v
            have := count_cons_split j todo v
            have := count_snoc_split j jobs v
            simp only [unsent]
            omega
          · intro hpos
            dsimp only at hpos
            omega
          · simp only [poolMeasure, mainLeft, List.length_cons, List.length_append,
              List.length_singleton, List.length_nil]
            omega
        · cases hs
      | nil =>
        simp only at hs
        injection hs with hs
        subst hs
        simp only [unsent, unstarted, pastClose, toCollect, List.length_nil] at hSz hV hL hSt hC hCo
        refine ⟨⟨rfl, hSz, hV, hL, hSt, hC, hCo, hD⟩, ?_⟩
        simp [poolMeasure, mainLeft]
    | closing =>
      have hnc : jobsClosed ≠ true := by rw [hC]; simp [pastClose]
      have hD0 : (workers.map leftLoop).sum = 0 := by
        by_contra hne
        exact hnc (hD (by omega)).1
      simp only at hs
      rw [if_neg hnc] at hs
      injection hs with hs
      subst hs
      simp only [unsent, unstarted, pastClose, toCollect, List.length_nil] at hSz hV hL hSt hC hCo
      refine ⟨⟨rfl, hSz, hV, hL, hSt, rfl, hCo, ?_⟩, ?_⟩
      · intro hpos
        dsimp only at hpos
        omega
      · simp [poolMeasure, mainLeft]
    | receiving left =>
      cases left with
      | zero =>
        simp only at hs
        injection hs with hs
        subst hs
        simp only [unsent, unstarted, pastClose, toCollect, List.length_nil] at hSz hV hL hSt hC hCo
        refine ⟨⟨rfl, hSz, hV, hL, hSt, hC, hCo, hD⟩, ?_⟩
        simp [poolMeasure, mainLeft]
      | succ left =>
        simp only at hs
        cases results with
        | nil => simp only at hs; cases hs
        | cons r rest =>
          simp only at hs
          injection hs with hs
          subst hs
          simp only [unsent, unstarted, pastClose, toCollect, List.length_cons, List.length_nil]
            at hSz hV hL hSt hC hCo
          refine ⟨⟨rfl, ?_, ?_, hL, hSt, hC, ?_, hD⟩, ?_⟩
          · simp only [unsent, List.length_append, List.length_singleton, List.length_nil]
            omega
          · intro v
            have := hV v
            have := count_cons_split r rest v
            have := count_snoc_split r collected v
            simp only [unsent]
            omega
          · simp only [toCollect, List.length_append, List.length_singleton, List.length_nil]
            omega
          · simp only [poolMeasure, mainLeft]
            omega
    | returned => simp only at hs; cases hs

theorem poolWorkerStep_inv {s s1 : PoolState} {i : Nat} {w : Worker}
    (h : PoolInv s) (hw : s.workers[i]? = some w) (hs : poolWorkerStep s i w = some s1) :
    PoolInv s1 ∧ poolMeasure s1 < poolMeasure s := by
  obtain ⟨hP, hSz, hV, hL, hSt, hC, hCo, hD⟩ := h
  cases s with
  | mk jobs jobsClosed results main workers log collected panicked =>
    simp only at hP hSz hV hL hSt hC hCo hD hw
    subst hP
    simp only [poolWorkerStep] at hs
    have m1 := fun w1 => sum_map_set heldLen workers i w w1 hw
    have m2 := fun v w1 => sum_map_set (heldCount v) workers i w w1 hw
    have m3 := fun v w1 => sum_map_set (unloggedCount v) workers i w w1 hw
    have m4 := fun w1 => sum_map_set leftLoop workers i w w1 hw
    have m5 := fun w1 => sum_map_set workerLeft workers i w w1 hw
    cases w with
    | mk id pc =>
      cases pc with
      | atRange =>
        simp only at hs
        have a1 : heldLen { id := id, pc := WorkerPc.atRange } = 0 := rfl
        have a2 : ∀ v, heldCount v { id := id, pc := WorkerPc.atRange } = 0 := fun _ => rfl
        have a3 : ∀ v, unloggedCount v { id := id, pc := WorkerPc.atRange } = 0 := fun _ => rfl
        have a4 : leftLoop { id := id, pc := WorkerPc.atRange } = 0 := rfl
        have a5 : workerLeft { id := id, pc := WorkerPc.atRange } = 2 := rfl
        cases jobs with
        | cons job rest =>
          simp only at hs
          injection hs with hs
          subst hs
          have b1 : heldLen { id := id, pc := WorkerPc.atPrintf job } = 1 := rfl
          have b2 : ∀ v, heldCount v { id := id, pc := WorkerPc.atPrintf job }
              = [double job].count v := fun _ => rfl
          have b3 : ∀ v, unloggedCount v { id := id, pc := WorkerPc.atPrintf job }
              = [job].count v := fun _ => rfl
          have b4 : leftLoop { id := id, pc := WorkerPc.atPrintf job } = 0 := rfl
          have b5 : workerLeft { id := id, pc := WorkerPc.atPrintf job } = 4 := rfl
          have e1 := m1 { id := id, pc := WorkerPc.atPrintf job }
          have e4 := m4 { id := id, pc := WorkerPc.atPrintf job }
          have e5 := m5 { id := id, pc := WorkerPc.atPrintf job }
          have hD0 : (workers.map leftLoop).sum = 0 := by
            by_contra hne
            have := (hD (by omega)).2
            cases this
          simp only [List.length_cons, List.map_cons] at hSz hV hL
          refine ⟨⟨rfl, ?_, ?_, ?_, ?_, hC, hCo, ?_⟩, ?_⟩
          · dsimp only
            omega
          · intro v
            have := hV v
            have := m2 v { id := id, pc := WorkerPc.atPrintf job }
            have := a2 v
            have := b2 v
            have := count_cons_split (double job) (rest.map double) v
            dsimp only
            omega
          · intro v
            have := hL v
            have := m3 v { id := id, pc := WorkerPc.atPrintf job }
            have := a3 v
            have := b3 v
            have := count_cons_split job rest v
            dsimp only
            omega
          · dsimp only
            rw [List.length_set]
            exact hSt
          · intro hpos
            dsimp only at hpos
            omega
          · simp only [poolMeasure, List.length_cons]
            omega
        | nil =>
          simp only at hs
          split at hs
          · rename_i hcl
            injection hs with hs
            subst hs
            have b1 : heldLen { id := id, pc := WorkerPc.atExit } = 0 := rfl
            have b2 : ∀ v, heldCount v { id := id, pc := WorkerPc.atExit } = 0 := fun _ => rfl
            have b3 : ∀ v, unloggedCount v { id := id, pc := WorkerPc.atExit } = 0 :=
              fun _ => rfl
            have b5 : workerLeft { id := id, pc := WorkerPc.atExit } = 1 := rfl
            have e1 := m1 { id := id, pc := WorkerPc.atExit }
            have e5 := m5 { id := id, pc := WorkerPc.atExit }
            refine ⟨⟨rfl, ?_, ?_, ?_, ?_, hC, hCo, fun _ => ⟨hcl, rfl⟩⟩, ?_⟩
            · dsimp only
              omega
            · intro v
              have := hV v
              have := m2 v { id := id, pc := WorkerPc.atExit }
              have := a2 v
              have := b2 v
              dsimp only
              omega
            · intro v
              have := hL v
              have := m3 v { id := id, pc := WorkerPc.atExit }
              have := a3 v
              have := b3 v
              dsimp only
              omega
            · dsimp only
              rw [List.length_set]
              exact hSt
            · simp only [poolMeasure]
              omega
          · cases hs
      | atPrintf job =>
        simp only at hs
        injection hs with hs
        subst hs
        have a1 : heldLen { id := id, pc := WorkerPc.atPrintf job } = 1 := rfl
        have a2 : ∀ v, heldCount v { id := id, pc := WorkerPc.atPrintf job }
            = [double job].count v := fun _ => rfl
        have a3 : ∀ v, unloggedCount v { id := id, pc := WorkerPc.atPrintf job }
            = [job].count v := fun _ => rfl
        have a4 : leftLoop { id := id, pc := WorkerPc.atPrintf job } = 0 := rfl
        have a5 : workerLeft { id := id, pc := WorkerPc.atPrintf job } = 4 := rfl
        have b1 : heldLen { id := id, pc := WorkerPc.atSend job } = 1 := rfl
        have b2 : ∀ v, heldCount v { id := id, pc := WorkerPc.atSend job }
            = [double job].count v := fun _ => rfl
        have b3 : ∀ v, unloggedCount v { id := id, pc := WorkerPc.atSend job } = 0 :=
          fun _ => rfl
        have b4 : leftLoop { id := id, pc := WorkerPc.atSend job } = 0 := rfl
        have b5 : workerLeft { id := id, pc := WorkerPc.atSend job } = 3 := rfl
        have e1 := m1 { id := id, pc := WorkerPc.atSend job }
        have e4 := m4 { id := id, pc := WorkerPc.atSend job }
        have e5 := m5 { id := id, pc := WorkerPc.atSend job }
        refine ⟨⟨rfl, ?_, ?_, ?_, ?_, hC, hCo, ?_⟩, ?_⟩
        · dsimp only
          omega
        · intro v
          have := hV v
          have := m2 v { id := id, pc := WorkerPc.atSend job }
          have := a2 v
          have := b2 v
          dsimp only
          omega
        · intro v
          have := hL v
          have := m3 v { id := id, pc := WorkerPc.atSend job }
          have := a3 v
          have := b3 v
          have : ((log ++ [(id, job)]).map Prod.snd).count v
              = (log.map Prod.snd).count v + [job].count v := by
            rw [List.map_append, List.count_append]
            rfl
          dsimp only
          omega
        · dsimp only
          rw [List.length_set]
          exact hSt
        · intro hpos
          dsimp only at hpos
          exact hD (by omega)
        · simp only [poolMeasure]
          omega
      | atSend job =>
        simp only at hs
        split at hs
        · injection hs with hs
          subst hs
          have a1 : heldLen { id := id, pc := WorkerPc.atSend job } = 1 := rfl
          have a2 : ∀ v, heldCount v { id := id, pc := WorkerPc.atSend job }
              = [double job].count v := fun _ => rfl
          have a3 : ∀ v, unloggedCount v { id := id, pc := WorkerPc.atSend job } = 0 :=
            fun _ => rfl
          have a4 : leftLoop { id := id, pc := WorkerPc.atSend job } = 0 := rfl
          have a5 : workerLeft { id := id, pc := WorkerPc.atSend job } = 3 := rfl
          have b1 : heldLen { id := id, pc := WorkerPc.atRange } = 0 := rfl
          have b2 : ∀ v, heldCount v { id := id, pc := WorkerPc.atRange } = 0 := fun _ => rfl
          have b3 : ∀ v, unloggedCount v { id := id, pc := WorkerPc.atRange } = 0 :=
            fun _ => rfl
          have b4 : leftLoop { id := id, pc := WorkerPc.atRange } = 0 := rfl
          have b5 : workerLeft { id := id, pc := WorkerPc.atRange } = 2 := rfl
          have e1 := m1 { id := id, pc := WorkerPc.atRange }
          have e4 := m4 { id := id, pc := WorkerPc.atRange }
          have e5 := m5 { id := id, pc := WorkerPc.atRange }
          refine ⟨⟨rfl, ?_, ?_, ?_, ?_, hC, hCo, ?_⟩, ?_⟩
          · simp only [List.length_append, List.length_singleton]
            omega
          · intro v
            have := hV v
            have := m2 v { id := id, pc := WorkerPc.atRange }
            have := a2 v
            have := b2 v
            have := count_snoc_split (double job) results v
            dsimp only
            omega
          · intro v
            have := hL v
            have := m3 v { id := id, pc := WorkerPc.atRange }
            have := a3 v
            have := b3 v
            dsimp only
            omega
          · dsimp only
            rw [List.length_set]
            exact hSt
          · intro hpos
            dsimp only at hpos
            exact hD (by omega)
          · simp only [poolMeasure]
            omega
        · cases hs
      | atExit =>
        simp only at hs
        injection hs with hs
        subst hs
        have a1 : heldLen { id := id, pc := WorkerPc.atExit } = 0 := rfl
        have a2 : ∀ v, heldCount v { id := id, pc := WorkerPc.atExit } = 0 := fun _ => rfl
        have a3 : ∀ v, unloggedCount v { id := id, pc := WorkerPc.atExit } = 0 := fun _ => rfl
        have a4 : leftLoop { id := id, pc := WorkerPc.atExit } = 1 := rfl
        have a5 : workerLeft { id := id, pc := WorkerPc.atExit } = 1 := rfl
        have b1 : heldLen { id := id, pc := WorkerPc.exited } = 0 := rfl
        have b2 : ∀ v, heldCount v { id := id, pc := WorkerPc.exited } = 0 := fun _ => rfl
        have b3 : ∀ v, unloggedCount v { id := id, pc := WorkerPc.exited } = 0 := fun _ => rfl
        have b4 : leftLoop { id := id, pc := WorkerPc.exited } = 1 := rfl
        have b5 : workerLeft { id := id, pc := WorkerPc.exited } = 0 := rfl
        have e1 := m1 { id := id, pc := WorkerPc.exited }
        have e4 := m4 { id := id, pc := WorkerPc.exited }
        have e5 := m5 { id := id, pc := WorkerPc.exited }
        have e0 := le_sum_map leftLoop workers i _ hw
        refine ⟨⟨rfl, ?_, ?_, ?_, ?_, hC, hCo, fun _ => hD (by omega)⟩, ?_⟩
        · dsimp only
          omega
        · intro v
          have := hV v
          have := m2 v { id := id, pc := WorkerPc.exited }
          have := a2 v
          have := b2 v
          dsimp only
          omega
        · intro v
          have := hL v
          have := m3 v { id := id, pc := WorkerPc.exited }
          have := a3 v
          have := b3 v
          dsimp only
          omega
        · dsimp only
          rw [List.length_set]
          exact hSt
        · simp only [poolMeasure]
          omega
      | exited => simp only at hs; cases hs

theorem poolStep_inv {s s1 : PoolState} {a : PoolActor}
    (h : PoolInv s) (hs : poolStep s a = some s1) :
    PoolInv s1 ∧ poolMeasure s1 < poolMeasure s := by
  simp only [poolStep, h.noPanic] at hs
  cases a with
  | main => exact poolMainStep_inv h hs
  | worker i =>
    simp only at hs
    cases hw : s.workers[i]? with
    | none => rw [hw] at hs; cases hs
    | some w =>
      rw [hw] at hs
      exact poolWorkerStep_inv h hw hs

theorem poolExec_inv :
    ∀ (sched : List PoolActor) (s s1 : PoolState), PoolInv s → poolExec s sched = some s1 →
      PoolInv s1 := by
  intro sched
  induction sched with
  | nil =>
    intro s s1 h he
    simp only [poolExec] at he
    injection he with he
    subst he
    exact h
  | cons a rest ih =>
    intro s s1 h he
    simp only [poolExec] at he
    cases hs : poolStep s a with
    | none => rw [hs] at he; cases he
    | some s2 =>
      rw [hs] at he
      exact ih s2 s1 (poolStep_inv h hs).1 he

theorem sum_map_le {α : Type} (f g : α → Nat) (hfg : ∀ x, f x ≤ g x) :
    ∀ (l : List α), (l.map f).sum ≤ (l.map g).sum := by
  intro l
  induction l with
  | nil => exact Nat.le_refl _
  | cons a l ih =>
    have := hfg a
    simp only [List.map, List.sum_cons]
    omega

theorem heldCount_le (v : Int) (w : Worker) : heldCount v w ≤ heldLen w := by
  unfold heldCount heldLen
  have := List.count_le_length v ((held w).map double)
  rw [List.length_map] at this
  exact this

theorem unloggedCount_le (v : Int) (w : Worker) : unloggedCount v w ≤ heldLen w := by
  cases w with
  | mk id pc =>
    cases pc <;> simp only [unloggedCount, heldLen, unlogged, held] <;>
      first
      | exact List.count_le_length v _
      | exact Nat.zero_le _

theorem poolStep_progress {s : PoolState} (h : PoolInv s) (hn : s.main ≠ PoolMain.returned) :
    ∃ a s1, poolStep s a = some s1 := by
  obtain ⟨hP, hSz, hV, hL, hSt, hC, hCo, hD⟩ := h
  have hsome : ∃ a, (poolStep s a).isSome = true := by
    cases s with
    | mk jobs jobsClosed results main workers log collected panicked =>
      simp only at hP hSz hV hL hSt hC hCo hD hn
      subst hP
      cases main with
      | returned => exact absurd rfl hn
      | spawning ids =>
        cases ids <;> exact ⟨PoolActor.main, rfl⟩
      | closing =>
        have hnc : jobsClosed ≠ true := by rw [hC]; simp [pastClose]
        exact ⟨PoolActor.main, by simp [poolStep, poolMainStep, hnc]⟩
      | sending todo =>
        have hnc : jobsClosed ≠ true := by rw [hC]; simp [pastClose]
        cases todo with
        | nil => exact ⟨PoolActor.main, rfl⟩
        | cons j todo =>
          simp only [unsent, List.length_cons] at hSz
          have hlt : jobs.length < 5 := by omega
          exact ⟨PoolActor.main, by simp [poolStep, poolMainStep, hnc, hlt]⟩
      | receiving left =>
        cases left with
        | zero => exact ⟨PoolActor.main, rfl⟩
        | succ left =>
          cases results with
          | cons r rest => exact ⟨PoolActor.main, rfl⟩
          | nil =>
            simp only [unsent, toCollect, unstarted, List.length_nil] at hSz hCo hSt
            by_cases hheld : 0 < (workers.map heldLen).sum
            · obtain ⟨i, w, hw, hpos⟩ := exists_pos_of_sum_pos heldLen workers hheld
              refine ⟨PoolActor.worker i, ?_⟩
              cases w with
              | mk id pc =>
                cases pc with
                | atRange => simp [heldLen, held] at hpos
                | atExit => simp [heldLen, held] at hpos
                | exited => simp [heldLen, held] at hpos
                | atPrintf job => simp [poolStep, hw, poolWorkerStep]
                | atSend job => simp [poolStep, hw, poolWorkerStep]
            · have hjobs : 0 < jobs.length := by omega
              have hloop : (workers.map leftLoop).sum = 0 := by
                by_contra hne
                have := (hD (by omega)).2
                rw [this] at hjobs
                simp at hjobs
              have hlen : 0 < workers.length := by omega
              have hw : workers[0]? = some (workers[0]) := List.getElem?_eq_getElem hlen
              have h1 := le_sum_map leftLoop workers 0 _ hw
              have h2 := le_sum_map heldLen workers 0 _ hw
              refine ⟨PoolActor.worker 0, ?_⟩
              cases hw0 : workers[0] with
              | mk id pc =>
                rw [hw0] at hw h1 h2
                cases jobs with
                | nil => simp at hjobs
                | cons job rest =>
                  cases pc with
                  | atRange => simp [poolStep, hw, poolWorkerStep]
                  | atExit => simp [leftLoop] at h1; omega
                  | exited => simp [leftLoop] at h1; omega
                  | atPrintf job => simp [heldLen, held] at h2; omega
                  | atSend job => simp [heldLen, held] at h2; omega
  obtain ⟨a, ha⟩ := hsome
  exact ⟨a, (poolStep s a).get ha, (Option.some_get ha).symm⟩

theorem poolJobs_double : poolJobs.map double = [2, 4, 6, 8, 10] := by decide

theorem poolInv_subperm {s : PoolState} (h : PoolInv s) :
    s.collected.Subperm [2, 4, 6, 8, 10] ∧ (s.log.map Prod.snd).Subperm [1, 2, 3, 4, 5] := by
  constructor
  · rw [← poolJobs_double]
    apply List.subperm_ext_iff.mpr
    intro v _
    have := h.values v
    omega
  · apply List.subperm_ext_iff.mpr
    intro v _
    have := h.logged v
    show _ ≤ poolJobs.count v
    omega

theorem poolInv_returned {s : PoolState} (h : PoolInv s) (hr : s.main = PoolMain.returned) :
    s.collected.Perm [2, 4, 6, 8, 10] ∧ (s.log.map Prod.snd).Perm [1, 2, 3, 4, 5] := by
  obtain ⟨hP, hSz, hV, hL, hSt, hC, hCo, hD⟩ := h
  rw [hr] at hSz hV hL hCo
  simp only [unsent, toCollect, List.length_nil, List.map_nil, List.count_nil] at hSz hV hL hCo
  have hheld : (s.workers.map heldLen).sum = 0 := by omega
  have hjobs : s.jobs = [] := List.length_eq_zero.mp (by omega)
  have hres : s.results = [] := List.length_eq_zero.mp (by omega)
  constructor
  · rw [← poolJobs_double]
    apply List.perm_iff_count.mpr
    intro v
    have h1 := hV v
    have h2 := sum_map_le (heldCount v) heldLen (heldCount_le v) s.workers
    rw [hjobs, hres] at h1
    simp only [List.map_nil, List.count_nil] at h1
    omega
  · apply List.perm_iff_count.mpr
    intro v
    have h1 := hL v
    have h2 := sum_map_le (unloggedCount v) heldLen (unloggedCount_le v) s.workers
    rw [hjobs] at h1
    simp only [List.count_nil] at h1
    show _ = poolJobs.count v
    omega

/-- C7. In `workerPool` (3 workers, jobs 1..5 sent on `jobs`, which is then closed),
under every schedule of the four goroutines: no panic escapes; at every moment the
results received so far and the jobs printed as processed so far contain no value more
often than `[2,4,6,8,10]` and `[1,2,3,4,5]` do (nothing is duplicated); when the
main goroutine has returned, the five values it received from `results` are a
permutation of `[2,4,6,8,10]` and the jobs in the lines "Worker id 处理任务 job" are a
permutation of `[1,2,3,4,5]` (every job was processed by exactly one worker, none was
lost); until the main goroutine returns some goroutine can move, and every step brings
the program closer to its end (so it does return). -/
theorem workerPool_results_are_a_permutation
    (sched : List PoolActor) (s : PoolState) (hrun : poolExec workerPool sched = some s) :
    s.panicked = none ∧
    s.collected.Subperm [2, 4, 6, 8, 10] ∧
    (s.log.map Prod.snd).Subperm [1, 2, 3, 4, 5] ∧
    (s.main = PoolMain.returned →
      s.collected.length = 5 ∧ s.collected.Perm [2, 4, 6, 8, 10] ∧
      (s.log.map Prod.snd).Perm [1, 2, 3, 4, 5]) ∧
    (s.main ≠ PoolMain.returned → ∃ a s1, poolStep s a = some s1) ∧
    (∀ a s1, poolStep s a = some s1 → poolMeasure s1 < poolMeasure s) := by
  have hinv := poolExec_inv sched workerPool s poolStart_inv hrun
  refine ⟨hinv.noPanic, (poolInv_subperm hinv).1, (poolInv_subperm hinv).2, ?_,
    poolStep_progress hinv, fun a s1 hs => (poolStep_inv hinv hs).2⟩
  intro hr
  have hp := poolInv_returned hinv hr
  exact ⟨by simpa using hp.1.length_eq, hp.1, hp.2⟩

/-- C7 (witness): a complete run of `workerPool` in which the results arrive in the
order 4, 2, 6, 8, 10. -/
theorem workerPool_results_are_a_permutation_witness :
    poolExec workerPool poolSchedule = some poolFinal ∧
    poolFinal.main = PoolMain.returned ∧
    poolFinal.collected = [4, 2, 6, 8, 10] ∧
    poolFinal.collected.Perm [2, 4, 6, 8, 10] ∧
    (poolFinal.log.map Prod.snd).Perm [1, 2, 3, 4, 5] :=
  have h := (workerPool_results_are_a_permutation poolSchedule poolFinal (by decide)).2.2.2.1
    rfl
  ⟨by decide, rfl, rfl, h.2.1, h.2.2⟩

/-! ## Errors: `validate`, `processFile2` (C11, C12) -/

theorem GoError.isNil_iff (e : GoError) : e.isNil = true ↔ e = GoError.nil := by
  cases e <;> simp [GoError.isNil]

theorem GoError.isNil_false_of_ne {e : GoError} (h : e ≠ GoError.nil) : e.isNil = false := by
  cases hb : e.isNil with
  | false => rfl
  | true => exact absurd ((GoError.isNil_iff e).mp hb) h

theorem errorfW_unwrap (lead : String) {e : GoError} (h : e ≠ GoError.nil) :
    (errorfW lead e).isNil = false ∧ errorsUnwrap (errorfW lead e) = e := by
  cases e with
  | nil => exact absurd rfl h
  | errorString s => exact ⟨rfl, rfl⟩
  | wrapError msg err => exact ⟨rfl, rfl⟩
  | pathError op path err => exact ⟨rfl, rfl⟩
  | validationError p => exact ⟨rfl, rfl⟩
  | myError p => exact ⟨rfl, rfl⟩
  | other text => exact ⟨rfl, rfl⟩

/-- C11. For every string `data`, `validate(data)` returns nil if and only if `data` is
non-empty; for the empty string it returns a `*ValidationError` with `Field` "data" and
`Message` "不能为空"; the `Error()` text of a `*ValidationError` is `Field`, then ": ",
then `Message`; and in `demonstrateCustomError` the `errors.As` extraction succeeds
with that very `*ValidationError`, so its line is printed. -/
theorem validate_nil_iff_nonempty (data : String) :
    (validate data = GoError.nil ↔ data ≠ "") ∧
    validate "" = GoError.validationError (some { Field := "data", Message := "不能为空" }) ∧
    (∀ v : ValidationError,
      (GoError.validationError (some v)).Error = Outcome.ok (v.Field ++ ": " ++ v.Message)) ∧
    (validate "").Error = Outcome.ok "data: 不能为空" ∧
    errorsAsValidation (validate "") = some (some { Field := "data", Message := "不能为空" }) ∧
    demonstrateCustomError = Outcome.ok ["验证错误 - 字段: data, 消息: 不能为空\n"] := by
  refine ⟨?_, rfl, fun _ => rfl, rfl, rfl, rfl⟩
  unfold validate
  by_cases h : data = ""
  · rw [if_pos h]
    constructor
    · intro e; cases e
    · intro hne; exact absurd h hne
  · rw [if_neg h]
    exact ⟨fun _ => h, fun _ => rfl⟩

/-- C12. Whatever `os.Open` answers for the file name: when it fails with the
(non-nil) error `err`, `processFile2` returns a non-nil error `e` with
`errors.Unwrap(e)` equal to `err`, whereas the trap `processFile` returns a non-nil
error whose `Unwrap` is nil; when the open succeeds both return nil; and in
`correctWay3`, when the open of "test.txt" fails, unwrapping the re-wrapped error gives
back the error `processFile2` returned. -/
theorem processFile2_wraps_open_error (osOpen : String → OpenResult) (filename : String) :
    ((osOpen filename).err ≠ GoError.nil →
      (processFile2 osOpen filename).1.isNil = false ∧
      errorsUnwrap (processFile2 osOpen filename).1 = (osOpen filename).err ∧
      (processFile osOpen filename).1.isNil = false ∧
      errorsUnwrap (processFile osOpen filename).1 = GoError.nil) ∧
    ((osOpen filename).err = GoError.nil →
      (processFile2 osOpen filename).1 = GoError.nil ∧
      (processFile osOpen filename).1 = GoError.nil) ∧
    ((osOpen "test.txt").err ≠ GoError.nil →
      (correctWay3 osOpen).err = (processFile2 osOpen "test.txt").1 ∧
      (correctWay3 osOpen).wrapped.isNil = false ∧
      errorsUnwrap (correctWay3 osOpen).wrapped = (processFile2 osOpen "test.txt").1 ∧
      (correctWay3 osOpen).original = (processFile2 osOpen "test.txt").1) := by
  refine ⟨?_, ?_, ?_⟩
  · intro h
    have hn := GoError.isNil_false_of_ne h
    have hw := errorfW_unwrap "打开文件失败: " h
    simp only [processFile2, processFile, hn]
    exact ⟨hw.1, hw.2, rfl, rfl⟩
  · intro h
    have hn := (GoError.isNil_iff _).mpr h
    simp only [processFile2, processFile, hn]
    exact ⟨rfl, rfl⟩
  · intro h
    have hn := GoError.isNil_false_of_ne h
    have hw := errorfW_unwrap "打开文件失败: " h
    have he : (processFile2 osOpen "test.txt").1
        = errorfW "打开文件失败: " (osOpen "test.txt").err := by
      simp only [processFile2, hn]
      rfl
    have hne : (processFile2 osOpen "test.txt").1 ≠ GoError.nil := by
      intro e
      have := (GoError.isNil_iff _).mpr e
      rw [he, hw.1] at this
      cases this
    have hw2 := errorfW_unwrap "处理失败: " hne
    have hn2 := GoError.isNil_false_of_ne hne
    simp only [correctWay3, hn2]
    exact ⟨rfl, hw2.1, hw2.2, hw2.2⟩

/-- C12 (witness): `os.Open` fails because `test.txt` does not exist. -/
theorem processFile2_wraps_open_error_witness :
    (noSuchFile "test.txt").err ≠ GoError.nil ∧
    errorsUnwrap (processFile2 noSuchFile "test.txt").1 = (noSuchFile "test.txt").err ∧
    errorsUnwrap (processFile noSuchFile "test.txt").1 = GoError.nil ∧
    (correctWay3 noSuchFile).original = (processFile2 noSuchFile "test.txt").1 ∧
    (processFile2 everyFile "test.txt").1 = GoError.nil :=
  ⟨by decide,
   ((processFile2_wraps_open_error noSuchFile "test.txt").1 (by decide)).2.1,
   ((processFile2_wraps_open_error noSuchFile "test.txt").1 (by decide)).2.2.2,
   ((processFile2_wraps_open_error noSuchFile "test.txt").2.2 (by decide)).2.2.2,
   ((processFile2_wraps_open_error everyFile "test.txt").2.1 rfl).1⟩

/-- C11 (witness): a non-empty string passes, the empty string does not. -/
theorem validate_nil_iff_nonempty_witness :
    validate "abc" = GoError.nil ∧ validate "" ≠ GoError.nil :=
  ⟨(validate_nil_iff_nonempty "abc").1.mpr (by decide),
   fun h => (validate_nil_iff_nonempty "").1.mp h rfl⟩

/-! ## `defer` and `recover` (C13, C14, C15) -/

/-- C13. The panic of `errorHandling()` never escapes: at `panic("测试错误")` the panic
is in progress (and would go on to the caller if nothing were deferred), the deferred
closure recovers it and stores an error in the named result, and the call returns
normally a non-nil error whose message is "panic: 测试错误". -/
theorem errorHandling_recovers_its_panic :
    errorHandlingAtPanic.finish (fun err => err) = Outcome.panic "测试错误" ∧
    (errorHandlingDeferred errorHandlingAtPanic).panicking = none ∧
    errorHandling = Outcome.ok (GoError.errorString "panic: 测试错误") ∧
    (∀ msg, errorHandling ≠ Outcome.panic msg) ∧
    (∃ e, errorHandling = Outcome.ok e ∧ e.isNil = false ∧
      e.Error = Outcome.ok "panic: 测试错误") := by
  refine ⟨rfl, rfl, rfl, ?_, ⟨_, rfl, rfl, rfl⟩⟩
  intro msg h
  have e : errorHandling = Outcome.ok (GoError.errorString "panic: 测试错误") := rfl
  rw [e] at h
  cases h

/-- C14. The call `returnValue1()` returns 2: `return 1` first assigns 1 to the named
result, the deferred closure then increments it to 2, and the function returns the
named result. -/
theorem returnValue1_returns_two :
    returnValue1AtReturn.vars.val = 1 ∧
    (returnValue1Deferred returnValue1AtReturn).vars.val = 2 ∧
    intResult returnValue1 = some 2 ∧
    (∃ v, returnValue1 = Outcome.ok v ∧ v.val = 2) := by
  refine ⟨by decide, by decide, by decide, ⟨_, rfl, by decide⟩⟩

/-- C15. The call `returnValue2()` returns 1: `return result` first copies the local
`result` (1) into the unnamed result, the deferred closure then increments the local
to 2, which leaves the result at 1. -/
theorem returnValue2_returns_one :
    returnValue2AtReturn.vars.ret.val = 1 ∧
    (returnValue2Deferred returnValue2AtReturn).vars.result.val = 2 ∧
    (returnValue2Deferred returnValue2AtReturn).vars.ret.val = 1 ∧
    intResult returnValue2 = some 1 ∧
    (∃ v, returnValue2 = Outcome.ok v ∧ v.val = 1) := by
  refine ⟨by decide, by decide, by decide, by decide, ⟨_, rfl, by decide⟩⟩

/-! ## Nil pointers (C16, C17) -/

/-- C16. For every `*Person` `p`: `safeGetName(p)` never panics, it returns "未知" when
`p` is nil and `p.Name` otherwise; `GetName` panics exactly when its receiver is nil,
and returns `p.Name` otherwise. -/
theorem safeGetName_never_panics (p : Option Person) :
    (∀ msg, safeGetName p ≠ Outcome.panic msg) ∧
    safeGetName p ≠ Outcome.blocked ∧
    (p = none → safeGetName p = Outcome.ok "未知") ∧
    (∀ x, p = some x → safeGetName p = Outcome.ok x.Name) ∧
    ((∃ msg, Person.GetName p = Outcome.panic msg) ↔ p = none) ∧
    (∀ x, p = some x → Person.GetName p = Outcome.ok x.Name) := by
  cases p with
  | none =>
    refine ⟨?_, ?_, fun _ => rfl, ?_, ⟨fun _ => rfl, fun _ => ⟨nilDeref, rfl⟩⟩, ?_⟩
    · intro msg h
      cases h
    · intro h
      cases h
    · intro x h
      cases h
    · intro x h
      cases h
  | some y =>
    refine ⟨?_, ?_, ?_, ?_, ⟨?_, ?_⟩, ?_⟩
    · intro msg h
      cases h
    · intro h
      cases h
    · intro h
      cases h
    · intro x h
      injection h with h
      subst h
      rfl
    · rintro ⟨msg, h⟩
      cases h
    · intro h
      cases h
    · intro x h
      injection h with h
      subst h
      rfl

/-- C16 (witness): the nil pointer and a pointer to a person. -/
theorem safeGetName_never_panics_witness :
    safeGetName none = Outcome.ok "未知" ∧
    safeGetName (some somePerson) = Outcome.ok "Ann" ∧
    (∃ msg, Person.GetName none = Outcome.panic msg) ∧
    Person.GetName (some somePerson) = Outcome.ok "Ann" :=
  ⟨(safeGetName_never_panics none).2.2.1 rfl,
   (safeGetName_never_panics (some somePerson)).2.2.2.1 somePerson rfl,
   (safeGetName_never_panics none).2.2.2.2.1.mpr rfl,
   (safeGetName_never_panics (some somePerson)).2.2.2.2.2 somePerson rfl⟩

/-- C17. The call `returnError()` returns an `error` interface value that is not nil:
it holds the dynamic type `*MyError` with a nil pointer; so in `demonstrateError` the
branch `err != nil` is taken, and `err.Error()` does not panic but returns
"nil error", which is printed. In the same way the `Writer` of `trap1` that holds a
nil `*MyWriter` is not nil. -/
theorem returnError_is_not_nil :
    returnError = GoError.myError none ∧
    returnError.isNil = false ∧
    returnError ≠ GoError.nil ∧
    returnError.Error = Outcome.ok "nil error" ∧
    demonstrateError = Outcome.ok ["错误不为 nil\n", "nil error\n"] ∧
    trap1 = ["mw == nil: true\n", "w == nil: false\n"] := by
  refine ⟨rfl, rfl, ?_, rfl, rfl, by decide⟩
  intro h
  cases h

end GolangTrap
